import Mathlib

/-!
Verification development for the omobile chat application's conversation
history-normalization and response-orchestration layer
(`src/services/aiService.ts`, `src/App.tsx`, `src/unnamed/part_003`).

The TypeScript source is shallowly embedded: JS strings are Lean `String`
(character lists; `.length` agrees on the ASCII/BMP text the claims use),
JS array mutation is rendered as pure list transformation, `Date.now()` and
all network effects (fetch responses, the Gemini SDK, `process.env`) are
explicit parameters, and JS truthiness on strings/options is modeled by
dedicated helpers.
-/

namespace OMobile

/-- `Message.sender` field: `'user' | 'ai' | 'system'` (types.ts). -/
inductive Sender
  | user
  | ai
  | system
deriving DecidableEq, Repr

/-- `ModelProvider = 'openai' | 'deepseek' | 'gemini'` (types.ts). -/
inductive Provider
  | openai
  | deepseek
  | gemini
deriving DecidableEq, Repr

/-- Roles appearing in normalized turns: `'user' | 'assistant' | 'model'`. -/
inductive Role
  | user
  | assistant
  | model
deriving DecidableEq, Repr

/-- `Message` (types.ts).  Optional fields are `Option`; `timestamp` is the
JS millisecond count as a `Nat`. -/
structure Message where
  id : String
  text : String
  sender : Sender
  authorId : Option String
  authorName : Option String
  timestamp : Nat
  isError : Option Bool
deriving DecidableEq, Repr

/-- A normalized turn `{role, content}` produced by `mapHistory`. -/
structure Turn where
  role : Role
  content : String
deriving DecidableEq, Repr

/-- JS `a || b` for an optional string `a` (both `undefined` and `""` are
falsy). -/
def jsOrOpt (a : Option String) (b : String) : String :=
  match a with
  | some s => if s = "" then b else s
  | none => b

/-- JS `a || b` for a string `a` (`""` is falsy). -/
def jsOrStr (a b : String) : String :=
  if a = "" then b else a

/-- JS whitespace class `\s` / `trim`, restricted to the ASCII whitespace
characters (space, tab, newline, carriage return, vertical tab, form feed);
the exotic Unicode members of `\s` do not occur in this code's data. -/
def isWsC (c : Char) : Bool :=
  c == ' ' || c == '\t' || c == '\n' || c == '\r' || c == '\x0b' || c == '\x0c'

/-- Drop trailing whitespace characters of a character list. -/
def dropTrailWs (l : List Char) : List Char :=
  (l.reverse.dropWhile isWsC).reverse

/-- JS `String.prototype.trim` on a character list. -/
def jsTrimC (l : List Char) : List Char :=
  dropTrailWs (l.dropWhile isWsC)

/-- JS `String.prototype.trim`. -/
def jsTrim (s : String) : String :=
  String.mk (jsTrimC s.data)

/-- JS `String.prototype.toUpperCase` (ASCII). -/
def jsUpper (s : String) : String :=
  String.mk (s.data.map Char.toUpper)

/-- `MAX_HISTORY_MESSAGES` (aiService.ts line 5). -/
def MAX_HISTORY_MESSAGES : Nat := 40

/-- `MAX_HISTORY_CHARS` (aiService.ts line 6). -/
def MAX_HISTORY_CHARS : Nat := 12000

/-- JS `arr.slice(-MAX_HISTORY_MESSAGES)`: the last 40 elements (the whole
list when it is shorter). -/
def jsLast40 (l : List Message) : List Message :=
  l.drop (l.length - MAX_HISTORY_MESSAGES)

/-- The character-budget loop of `mapHistory` (aiService.ts lines 19-26),
which walks `recent` from its last element backwards, `unshift`ing messages
into the window until the 12,000-character budget would be exceeded (the
first message is always taken).  `rl` is the still-unprocessed part of the
reversed `recent`; `acc` is the window built so far (in original order). -/
def windowGo : List Message → Nat → List Message → List Message
  | [], _, acc => acc
  | m :: rest, total, acc =>
    if total + m.text.length > MAX_HISTORY_CHARS && !acc.isEmpty then acc
    else windowGo rest (total + m.text.length) (m :: acc)

/-- The `finalMessages` window of `mapHistory`. -/
def windowMessages (recent : List Message) : List Message :=
  windowGo recent.reverse 0 []

/-- The author label of a message: `msg.authorName || (sender === 'user' ?
'User' : 'Assistant')` (aiService.ts line 30). -/
def authorLabel (m : Message) : String :=
  jsOrOpt m.authorName (if m.sender == .user then "User" else "Assistant")

/-- Role mapping (aiService.ts lines 31-33). -/
def roleFor (provider : Provider) (s : Sender) : Role :=
  if provider == .gemini then
    (if s == .user then .user else .model)
  else
    (if s == .user then .user else .assistant)

/-- The author-tagged content wrapper (aiService.ts line 37). -/
def wrapContent (m : Message) : String :=
  "--- SOURCE: " ++ jsUpper (authorLabel m) ++ " ---\n"
    ++ jsTrim m.text ++ "\n--- END " ++ jsUpper (authorLabel m) ++ " ---"

/-- Step 2 of `mapHistory`: map one message to a turn. -/
def mkTurn (provider : Provider) (m : Message) : Turn :=
  { role := roleFor provider m.sender, content := wrapContent m }

/-- One step of the run-length merge loops (aiService.ts lines 46-53 and
82-88).  The JS code pushes onto / mutates the end of an array; here the
accumulator is kept reversed (head = most recent turn). -/
def mergeStep (acc : List Turn) (m : Turn) : List Turn :=
  match acc with
  | [] => [m]
  | a :: rest =>
    if a.role == m.role then
      { role := a.role, content := a.content ++ "\n\n" ++ m.content } :: rest
    else
      m :: a :: rest

/-- Run-length merging of consecutive same-role turns. -/
def mergeRuns (ms : List Turn) : List Turn :=
  (ms.foldl mergeStep []).reverse

/-- Rule 1 of the strict-alternation repair (aiService.ts lines 56-62): if
the first turn is an assistant turn, it is `shift`ed off and a `user` turn
wrapping its content is `unshift`ed in its place. -/
def repairStart (l : List Turn) : List Turn :=
  match l with
  | [] => []
  | t :: rest =>
    if t.role == .assistant then
      { role := .user, content := "[PREVIOUS CONTEXT]:\n" ++ t.content } :: rest
    else
      t :: rest

/-- Rule 2 of the strict-alternation repair (aiService.ts lines 67-75): a
trailing assistant turn is popped and folded into the previous turn when the
sequence has more than one turn; a lone assistant turn is converted in place
to a `user` turn wrapped as dialogue context. -/
def repairEnd (l : List Turn) : List Turn :=
  if l.length > 1 then
    match l.getLast? with
    | some last =>
      if last.role == .assistant then
        match l.dropLast.getLast? with
        | some prev =>
          l.dropLast.dropLast
            ++ [{ role := prev.role,
                  content := prev.content ++ "\n\n[FOLLOW-UP RESPONSE]:\n" ++ last.content }]
        | none => l
      else l
    | none => l
  else
    match l with
    | [only] =>
      if only.role == .assistant then
        [{ role := .user, content := "[DIALOGUE CONTEXT]:\n" ++ only.content }]
      else l
    | _ => l

/-- Split a character list into its lines at `'\n'`, as JS's `m`-flag
anchors do (`"" ↦ [""]`, `"a\n" ↦ ["a",""]`). -/
def splitLinesC : List Char → List (List Char)
  | [] => [[]]
  | c :: rest =>
    if c = '\n' then [] :: splitLinesC rest
    else
      match splitLinesC rest with
      | [] => [[c]]
      | l :: ls => (c :: l) :: ls

/-- Rejoin lines with `'\n'`. -/
def joinLinesC (ls : List (List Char)) : List Char :=
  (List.intersperse ['\n'] ls).flatten

/-- Hyphen test for the `-+` parts of the stripping patterns. -/
def isHy (c : Char) : Bool := c == '-'

/-- Strip a case-insensitive literal keyword from the front of a character
list (the `SOURCE:` / `END` literal under the regex `i` flag). -/
def stripKw : List Char → List Char → Option (List Char)
  | [], rest => some rest
  | _ :: _, [] => none
  | k :: ks, c :: cs => if k.toLower == c.toLower then stripKw ks cs else none

/-- Whether a single line fully matches `^-+\s*KW.*?-+\s*$` (with `KW` the
keyword `SOURCE:` or `END`): leading hyphens, optional whitespace, the
keyword case-insensitively, anything, trailing hyphens, optional trailing
whitespace.  Within one line, the greedy `-+`/`\s*` runs and the lazy `.*?`
admit a decomposition exactly when this check succeeds. -/
def tagLineMatch (kw : List Char) (l : List Char) : Bool :=
  let hs := l.takeWhile isHy
  if hs.isEmpty then false
  else
    match stripKw kw ((l.dropWhile isHy).dropWhile isWsC) with
    | none => false
    | some rest =>
      match (dropTrailWs rest).getLast? with
      | some c => isHy c
      | none => false

/-- The `SOURCE:` keyword of the first stripping pattern. -/
def kwSOURCE : List Char := ['S', 'O', 'U', 'R', 'C', 'E', ':']

/-- The `END` keyword of the second stripping pattern. -/
def kwEND : List Char := ['E', 'N', 'D']

/-- `text.replace(/^-+\s*KW.*?-+\s*$/gim, "")`: every line fully matching
the pattern is replaced by the empty string (the surrounding newlines
remain, as with the JS `replace`). -/
def replaceTagLines (kw : List Char) (s : List Char) : List Char :=
  joinLinesC ((splitLinesC s).map (fun l => if tagLineMatch kw l then [] else l))

/-- `cleanResponse` (aiService.ts lines 96-102): strip `--- SOURCE: ... ---`
lines, then `--- END ... ---` lines, then trim. -/
def cleanResponse (text : String) : String :=
  if text = "" then ""
  else String.mk (jsTrimC (replaceTagLines kwEND (replaceTagLines kwSOURCE text.data)))

/-- `mapHistory` (aiService.ts lines 12-91). -/
def mapHistory (history : List Message) (provider : Provider) : List Turn :=
  if history.isEmpty then []
  else
    let chatMessages := history.filter (fun m => !(m.sender == .system))
    let recent := jsLast40 chatMessages
    let finalMessages := windowMessages recent
    let mapped := finalMessages.map (mkTurn provider)
    if !(provider == .gemini) then
      repairEnd (repairStart (mergeRuns mapped))
    else
      mergeRuns mapped

/-- Whether `needle` occurs contiguously inside `hay`. -/
def listInfixOf (needle hay : List Char) : Bool :=
  hay.tails.any (fun t => needle.isPrefixOf t)

/-- JS `s.includes(sub)`. -/
def jsIncludes (s sub : String) : Bool :=
  listInfixOf sub.data s.data

instance {ε α : Type} [DecidableEq ε] [DecidableEq α] : DecidableEq (Except ε α) := by
  intro x y
  cases x <;> cases y
  case ok.ok a b =>
    exact if h : a = b then .isTrue (by rw [h]) else .isFalse (by simp [h])
  case error.error a b =>
    exact if h : a = b then .isTrue (by rw [h]) else .isFalse (by simp [h])
  case ok.error a b => exact .isFalse (by simp)
  case error.ok a b => exact .isFalse (by simp)

/-- The error taxonomy of `getAIResponse`'s thrown errors. -/
inductive AIError
  | missingKey (provider : Provider)
  | authFailed (provider : Provider)
  | providerErr (provider : Provider) (msg : String)
  | geminiErr (msg : String)
deriving DecidableEq, Repr

/-- The fields of a REST response that `getAIResponse` inspects:
`res.status` (with `res.ok ↔ 200 ≤ status < 300`), `data.error?.message`
and `data.choices?.[0]?.message?.content`. -/
structure FetchResult where
  status : Nat
  errorMessage : Option String
  content : Option String
deriving DecidableEq, Repr

/-- The request handed to the Gemini SDK's `generateContent`
(aiService.ts lines 118-135): the client's key (from `process.env`), the
model, the mapped contents, and the config. -/
structure GeminiRequest where
  apiKey : String
  model : String
  contents : List Turn
  systemInstruction : String
  temperature : ℚ
  thinkingBudget : Bool

/-- Observable outcome of one `getAIResponse` call: the returned string or
thrown error, how many REST fetches and Gemini SDK calls were made, and the
`sleep` delays (ms) awaited. -/
structure AIOutcome where
  result : Except AIError String
  restCalls : Nat
  geminiCalls : Nat
  sleeps : List Nat
deriving DecidableEq, Repr

/-- The REST request/response loop of `getAIResponse` (aiService.ts lines
167-191): attempt `retryCount` receives `fetch retryCount`; a non-ok
response is classified (401 first, then 429-with-retry, then a provider
error carrying `data.error?.message || "Error <status>"`).  Returns the raw
result together with the fetch count and the sleeps performed. -/
def restLoop (fetch : Nat → FetchResult) (provider : Provider) (retryCount : Nat) :
    Except AIError String × Nat × List Nat :=
  let r := fetch retryCount
  if 200 ≤ r.status && r.status < 300 then
    (Except.ok (jsOrOpt r.content "No content."), 1, [])
  else if r.status == 401 then
    (Except.error (.authFailed provider), 1, [])
  else
    let message := jsOrOpt r.errorMessage ("Error " ++ toString r.status)
    if h : r.status == 429 && retryCount < 1 then
      let inner := restLoop fetch provider (retryCount + 1)
      (inner.1, inner.2.1 + 1, 2000 :: inner.2.2)
    else
      (Except.error (.providerErr provider message), 1, [])
termination_by 1 - retryCount
decreasing_by
  simp only [Bool.and_eq_true, decide_eq_true_eq] at h
  omega

/-- `getAIResponse` (aiService.ts lines 106-199).  Network effects are
oracles: `gemini` answers SDK calls (`Except.error` is a thrown SDK
exception whose message is carried), `fetch` answers the REST attempt with
the given retry count, and `env` is `process.env.API_KEY`.  The Gemini
client key is `process.env.API_KEY || ''`; the REST branch throws before
any fetch when `apiKey` is falsy.  On success the raw text is passed
through `cleanResponse`. -/
def getAIResponse (gemini : GeminiRequest → Except String (Option String))
    (fetch : Nat → FetchResult) (env : Option String)
    (provider : Provider) (modelName : String) (systemPrompt : String)
    (history : List Message) (apiKey : String) (temperature : ℚ) : AIOutcome :=
  let safeTemperature := min (max temperature 0) (6 / 5 : ℚ)
  match provider with
  | .gemini =>
    let req : GeminiRequest :=
      { apiKey := jsOrOpt env ""
        model := modelName
        contents := mapHistory history .gemini
        systemInstruction := systemPrompt
        temperature := safeTemperature
        thinkingBudget := jsIncludes modelName "pro" }
    match gemini req with
    | .ok t => { result := .ok (cleanResponse (jsOrOpt t "No response.")),
                 restCalls := 0, geminiCalls := 1, sleeps := [] }
    | .error m => { result := .error (.geminiErr ("Gemini: " ++ m)),
                    restCalls := 0, geminiCalls := 1, sleeps := [] }
  | _ =>
    if apiKey = "" then
      { result := .error (.missingKey provider), restCalls := 0, geminiCalls := 0, sleeps := [] }
    else
      let out := restLoop fetch provider 0
      { result := out.1.map cleanResponse, restCalls := out.2.1, geminiCalls := 0,
        sleeps := out.2.2 }

/-- `Chat` (types.ts).  Optional fields are `Option`; `temperature` is a
rational (JS number). -/
structure ChatM where
  id : String
  name : String
  avatar : String
  provider : Provider
  modelName : String
  systemPrompt : String
  temperature : Option ℚ
  lastMessage : Option String
  lastTimestamp : Option Nat
  isPinned : Bool
  messages : List Message
  tags : List String
  parentId : Option String
  draft : Option String
  isGroup : Option Bool
  participantIds : Option (List String)
deriving DecidableEq, Repr

/-- The slice of `AppSettings` read by `triggerAIResponseForChat`. -/
structure AppSettingsM where
  openaiKey : String
  deepseekKey : String
  globalSystemPrompt : String
deriving DecidableEq, Repr

/-- `provider.toUpperCase()` for the three provider literals. -/
def providerUpper : Provider → String
  | .openai => "OPENAI"
  | .deepseek => "DEEPSEEK"
  | .gemini => "GEMINI"

/-- Target-assistant resolution of `triggerAIResponseForChat`
(App.tsx lines 168-176): an explicit non-`'user'` author id wins; a direct
1:1 chat answers itself; a group answers with its first participant. -/
def resolveTarget (chats : List ChatM) (chatBase : ChatM)
    (specificAuthorId : Option String) : Option ChatM :=
  if (match specificAuthorId with
      | some s => !(s == "") && !(s == "user")
      | none => false) then
    chats.find? (fun c => c.id == specificAuthorId.getD "")
  else if !(chatBase.isGroup.getD false)
      && (match chatBase.participantIds with
          | none => true
          | some l => l.isEmpty) then
    some chatBase
  else
    match chatBase.participantIds with
    | some (p :: _) => chats.find? (fun c => c.id == p)
    | _ => none

/-- The API key selected for the target assistant (App.tsx lines 180-185). -/
def keyFor (settings : AppSettingsM) : Provider → String
  | .openai => settings.openaiKey
  | .deepseek => settings.deepseekKey
  | .gemini => ""

/-- One step of the response-prefix stripping loop (App.tsx lines 215-219). -/
def stripOnePfx (s : String) (p : String) : String :=
  if p.data.isPrefixOf s.data then jsTrim (String.mk (s.data.drop p.data.length)) else s

/-- The prefix cleanup applied to a successful response (App.tsx lines
206-219): trim, then strip any of the assistant's own name prefixes. -/
def stripSelfPfxs (text : String) (name : String) : String :=
  [("[" ++ name ++ "]:"), (name ++ ":"), ("--- SOURCE: " ++ jsUpper name ++ " ---")].foldl
    stripOnePfx (jsTrim text)

/-- The system error message appended when the target's provider needs a
key and none is configured (App.tsx lines 191-197). -/
def noKeyMsg (now : Nat) (provider : Provider) : Message :=
  { id := "sys-" ++ toString now
    text := "⚠️ Error: No API key for " ++ providerUpper provider ++ "."
    sender := .system, authorId := none, authorName := none
    timestamp := now, isError := some true }

/-- The conversation-list outcome of one `triggerAIResponseForChat` call,
plus whether the provider gateway (`getAIResponse`) was invoked.  UI-only
state updates (active chat id, pending branch, draft clearing) are not
modeled. -/
structure OrchResult where
  chats : List ChatM
  gatewayCalled : Bool
deriving DecidableEq, Repr

/-- `triggerAIResponseForChat` (App.tsx lines 163-251).  The gateway
argument abstracts `getAIResponse` (its `Except.error` is a thrown error
whose `.message` is carried); `now` is `Date.now()`.  Each `setChats`
functional update is applied to `chats` directly. -/
def triggerAIResponseForChat
    (gateway : Provider → String → String → List Message → String → ℚ → Except String String)
    (now : Nat) (chats : List ChatM) (draftSubChat : Option ChatM)
    (settings : AppSettingsM) (chatId : String) (currentMessages : List Message)
    (specificAuthorId : Option String) : OrchResult :=
  let isDraft := match draftSubChat with
    | some d => d.id == chatId
    | none => false
  let chatBase := if isDraft then draftSubChat else chats.find? (fun c => c.id == chatId)
  match chatBase with
  | none => { chats := chats, gatewayCalled := false }
  | some cb =>
    match resolveTarget chats cb specificAuthorId with
    | none => { chats := chats, gatewayCalled := false }
    | some ta =>
      let apiKey := keyFor settings ta.provider
      let finalSystemPrompt := ta.systemPrompt ++ "\n\n" ++ settings.globalSystemPrompt
      if !(ta.provider == .gemini) && apiKey == "" then
        let sysMsg := noKeyMsg now ta.provider
        let finalMessages := currentMessages ++ [sysMsg]
        { chats := chats.map (fun c =>
            if c.id == chatId then
              { c with messages := finalMessages, lastMessage := some sysMsg.text,
                       lastTimestamp := some now }
            else c)
          gatewayCalled := false }
      else
        match gateway ta.provider ta.modelName finalSystemPrompt currentMessages apiKey
            (ta.temperature.getD (7 / 10 : ℚ)) with
        | .ok aiResponseText =>
          let cleanedText := stripSelfPfxs aiResponseText ta.name
          let aiMsg : Message :=
            { id := "ai-" ++ toString now, text := cleanedText, sender := .ai
              authorId := some ta.id, authorName := some ta.name
              timestamp := now, isError := none }
          let finalMessages := currentMessages ++ [aiMsg]
          if isDraft then
            let finalizedChat :=
              { cb with messages := finalMessages, lastMessage := some cleanedText,
                        lastTimestamp := some now }
            { chats := finalizedChat :: chats.filter (fun c => !(c.id == finalizedChat.id))
              gatewayCalled := true }
          else
            { chats := chats.map (fun c =>
                if c.id == chatId then
                  { c with messages := finalMessages, lastMessage := some cleanedText,
                           lastTimestamp := some now }
                else c)
              gatewayCalled := true }
        | .error emsg =>
          let errorMsg : Message :=
            { id := "err-" ++ toString now, text := emsg, sender := .system
              authorId := none, authorName := none, timestamp := now, isError := some true }
          let finalMessages := currentMessages ++ [errorMsg]
          { chats := chats.map (fun c =>
              if c.id == chatId then
                { c with messages := finalMessages, lastMessage := some errorMsg.text,
                         lastTimestamp := some now }
              else c)
            gatewayCalled := true }

/-- A responder entry of the `responders` memo (part_003 lines 150-157). -/
structure Responder where
  id : String
  name : String
  avatar : String
  icon : String
  color : String
deriving DecidableEq, Repr

/-- `responders` (part_003 lines 150-157): the human slot, the chat's own
persona, then every listed participant other than the chat itself, in
participant order. -/
def respondersOf (chat : ChatM) (allChats : List ChatM) : List Responder :=
  let participants := allChats.filter (fun c => (chat.participantIds.getD []).contains c.id)
  { id := "user", name := "Me", avatar := "", icon := "fa-user", color := "blue" } ::
  { id := chat.id, name := chat.name, avatar := chat.avatar, icon := "fa-robot",
    color := "orange" } ::
  (participants.filter (fun p => !(p.id == chat.id))).map (fun p =>
    { id := p.id, name := p.name, avatar := p.avatar, icon := "fa-robot", color := "orange" })

/-- The next-responder selection of `triggerNextAI` (part_003 lines
200-211): with fewer than two responders, or while a response is in flight,
nothing is selected; otherwise the most recent assistant-authored message's
author advances a round-robin pointer over the non-human responders
(JS `findIndex = -1` plus one lands on index 0, as does an absent last
assistant message). -/
def selectNextAI (responders : List Responder) (messages : List Message)
    (isTyping : Bool) : Option Responder :=
  if responders.length < 2 || isTyping then none
  else
    let lastAiMsg := messages.reverse.find? (fun m => m.sender == .ai && m.authorId.isSome)
    let aiResponders := responders.filter (fun r => !(r.id == "user"))
    let nextIdx :=
      match lastAiMsg with
      | some m =>
        match aiResponders.findIdx? (fun (r : Responder) => some r.id == m.authorId) with
        | some lastIdx => (lastIdx + 1) % aiResponders.length
        | none => 0
      | none => 0
    aiResponders[nextIdx]?

/-! Concrete fixtures used by counterexamples and witnesses. -/

/-- A single assistant-authored message `{sender:ai, authorName:"Bot", text:"hi"}`. -/
def botHiMsg : Message :=
  { id := "m1", text := "hi", sender := .ai, authorId := some "bot-1",
    authorName := some "Bot", timestamp := 1, isError := none }

/-- A system banner message. -/
def sysBoomMsg : Message :=
  { id := "s1", text := "boom", sender := .system, authorId := none,
    authorName := none, timestamp := 1, isError := some true }

/-- An assistant message with text `"x"`. -/
def aiXMsg : Message :=
  { id := "a1", text := "x", sender := .ai, authorId := some "bot-1",
    authorName := some "Bot", timestamp := 1, isError := none }

/-- A user message with text `"y"`. -/
def userYMsg : Message :=
  { id := "u1", text := "y", sender := .user, authorId := none,
    authorName := none, timestamp := 2, isError := none }

/-- A one-character user message. -/
def oneCharMsg : Message :=
  { id := "c1", text := "z", sender := .user, authorId := none,
    authorName := none, timestamp := 1, isError := none }

/-- A 12,001-character text, one character over the window budget. -/
def bigText : String := String.mk (List.replicate 12001 'a')

/-- A user message whose text alone exceeds the 12,000-character budget. -/
def bigMsg : Message :=
  { id := "b1", text := bigText, sender := .user, authorId := none,
    authorName := none, timestamp := 2, isError := none }

/-- Total text length of a list of messages, as accumulated by the
windowing loop. -/
def totalTextLen (l : List Message) : Nat :=
  (l.map (fun m => m.text.length)).sum

/-! Windowing lemmas (claim C5). -/

theorem windowGo_eq_take_append (l : List Message) (t : Nat) (acc : List Message) :
    ∃ k, windowGo l t acc = (l.take k).reverse ++ acc := by
  induction l generalizing t acc with
  | nil => exact ⟨0, rfl⟩
  | cons m rest ih =>
    simp only [windowGo]
    split
    · exact ⟨0, by simp⟩
    · obtain ⟨k, hk⟩ := ih (t + m.text.length) (m :: acc)
      exact ⟨k + 1, by simp [hk]⟩

theorem windowGo_ne_nil (l : List Message) (t : Nat) (acc : List Message)
    (h : acc ≠ []) : windowGo l t acc ≠ [] := by
  induction l generalizing t acc with
  | nil => exact h
  | cons m rest ih =>
    simp only [windowGo]
    split
    · exact h
    · exact ih _ _ (by simp)

theorem windowMessages_ne_nil (recent : List Message) (h : recent ≠ []) :
    windowMessages recent ≠ [] := by
  unfold windowMessages
  rcases hr : recent.reverse with _ | ⟨m, rest⟩
  · exact absurd (by simpa using congrArg List.reverse hr) h
  · have hstep : windowGo (m :: rest) 0 [] = windowGo rest (0 + m.text.length) [m] := by
      simp [windowGo]
    rw [hstep]
    exact windowGo_ne_nil _ _ _ (by simp)

theorem windowMessages_suffix (recent : List Message) :
    windowMessages recent <:+ recent := by
  unfold windowMessages
  obtain ⟨k, hk⟩ := windowGo_eq_take_append recent.reverse 0 []
  rw [hk, List.append_nil]
  refine ⟨(recent.reverse.drop k).reverse, ?_⟩
  rw [← List.reverse_append, List.take_append_drop, List.reverse_reverse]

theorem windowGo_budget (l : List Message) (t : Nat) (acc : List Message)
    (ht : t = totalTextLen acc)
    (hinv : totalTextLen acc ≤ MAX_HISTORY_CHARS ∨ acc.length = 1) :
    totalTextLen (windowGo l t acc) ≤ MAX_HISTORY_CHARS ∨ (windowGo l t acc).length = 1 := by
  induction l generalizing t acc with
  | nil => exact hinv
  | cons m rest ih =>
    simp only [windowGo]
    split
    · exact hinv
    · rename_i hcond
      rcases acc with _ | ⟨a, as⟩
      · refine ih _ _ (by simp [totalTextLen, ht]) ?_
        by_cases hle : totalTextLen [m] ≤ MAX_HISTORY_CHARS
        · exact Or.inl hle
        · exact Or.inr rfl
      · have hle : t + m.text.length ≤ MAX_HISTORY_CHARS := by
          by_contra hgt
          exact hcond (by simp [Nat.lt_of_not_le hgt, Nat.lt_iff_add_one_le] at hgt ⊢)
        refine ih _ _ ?_ (Or.inl ?_)
        · simp only [totalTextLen, List.map_cons, List.sum_cons] at ht ⊢
          omega
        · simp only [totalTextLen, List.map_cons, List.sum_cons] at ht hle ⊢
          omega

theorem jsLast40_suffix (l : List Message) : jsLast40 l <:+ l :=
  List.drop_suffix _ _

theorem jsLast40_length (l : List Message) : (jsLast40 l).length ≤ 40 := by
  simp only [jsLast40, List.length_drop, MAX_HISTORY_MESSAGES]
  omega

theorem jsLast40_ne_nil (l : List Message) (h : l ≠ []) : jsLast40 l ≠ [] := by
  simp only [jsLast40, ne_eq, List.drop_eq_nil_iff, MAX_HISTORY_MESSAGES]
  have : 0 < l.length := List.length_pos.mpr h
  omega

theorem windowMessages_length_le (recent : List Message) :
    (windowMessages recent).length ≤ recent.length := by
  unfold windowMessages
  obtain ⟨k, hk⟩ := windowGo_eq_take_append recent.reverse 0 []
  rw [hk]
  simp only [List.append_nil, List.length_reverse, List.length_take]
  omega

/-- The turn-sequence shape asserted by claim C1: roles strictly alternate
`user, assistant, user, ...` starting from `user`. -/
def altFromRole : Role → List Turn → Bool
  | _, [] => true
  | r, t :: ts => t.role == r && altFromRole (if r == .user then .assistant else .user) ts

/-- Claim C1's full property of an output sequence: strict `user, assistant,
...` alternation beginning with a `user` turn and ending with a `user`
turn. -/
def claimC1Holds (l : List Turn) : Bool :=
  altFromRole .user l &&
    (match l.getLast? with
     | some t => t.role == .user
     | none => false)

/-- Claim C1 fails on the code: for the two-message history
`[assistant "x", user "y"]` and provider `openai`, `mapHistory` replaces
(rather than merges) the leading assistant turn with a synthetic `user`
turn, producing two consecutive `user` turns, which is not a strict
`user, assistant, ...` alternation. -/
theorem c1_counterexample :
    claimC1Holds (mapHistory [aiXMsg, userYMsg] .openai) = false := by decide

/-- Claim C2 fails on the code: the single-assistant-message history
`[{sender:ai, authorName:"Bot", text:"hi"}]` normalized for `openai` yields
one `user` turn, but its content carries the `[PREVIOUS CONTEXT]` wrapper
of the alternation-start repair, not `"DIALOGUE CONTEXT"` — the
`[DIALOGUE CONTEXT]` conversion (aiService.ts lines 71-74) is unreachable
because rule 1 has already rewritten the lone assistant turn. -/
theorem c2_counterexample :
    (mapHistory [botHiMsg] .openai).length = 1 ∧
    (mapHistory [botHiMsg] .openai).all
      (fun t => t.role == .user &&
        !(listInfixOf "DIALOGUE CONTEXT".data t.content.data)) = true := by
  decide

/-- Claim C2 (amended): a single-message history from an assistant,
normalized for a REST provider (`openai` or `deepseek`), becomes exactly
one `user`-role turn whose content contains `"PREVIOUS CONTEXT"` and the
original text `"hi"` (the conversion happens via the alternation-start
repair, not the dialogue-context path). -/
theorem c2_single_assistant_amended :
    mapHistory [botHiMsg] .openai =
      [⟨.user, "[PREVIOUS CONTEXT]:\n--- SOURCE: BOT ---\nhi\n--- END BOT ---"⟩] ∧
    mapHistory [botHiMsg] .deepseek =
      [⟨.user, "[PREVIOUS CONTEXT]:\n--- SOURCE: BOT ---\nhi\n--- END BOT ---"⟩] ∧
    listInfixOf "PREVIOUS CONTEXT".data
      "[PREVIOUS CONTEXT]:\n--- SOURCE: BOT ---\nhi\n--- END BOT ---".data = true ∧
    listInfixOf "hi".data
      "[PREVIOUS CONTEXT]:\n--- SOURCE: BOT ---\nhi\n--- END BOT ---".data = true := by
  decide

/-- Claim C4 fails on the code: a non-empty history consisting of one
system message is filtered to nothing, so `mapHistory` returns the empty
turn sequence for every provider. -/
theorem c4_counterexample :
    ([sysBoomMsg] : List Message) ≠ [] ∧
    mapHistory [sysBoomMsg] .openai = [] ∧
    mapHistory [sysBoomMsg] .deepseek = [] ∧
    mapHistory [sysBoomMsg] .gemini = [] := by decide

/-- Claim C5: the windowing step of `mapHistory` keeps a contiguous suffix
of the filtered messages, at most 40 long, non-empty whenever the filtered
history is non-empty, and within the 12,000-character budget unless it is
the single most recent message alone; a history of 50 one-character
messages retains exactly 40, and a two-message history whose last message
has 12,001 characters retains exactly that last message. -/
theorem c5_windowing :
    (∀ history : List Message,
      windowMessages (jsLast40 (history.filter (fun m => !(m.sender == .system)))) <:+
          history.filter (fun m => !(m.sender == .system)) ∧
      (windowMessages (jsLast40 (history.filter (fun m => !(m.sender == .system))))).length
          ≤ 40 ∧
      (history.filter (fun m => !(m.sender == .system)) ≠ [] →
        windowMessages (jsLast40 (history.filter (fun m => !(m.sender == .system)))) ≠ []) ∧
      (totalTextLen
          (windowMessages (jsLast40 (history.filter (fun m => !(m.sender == .system)))))
            ≤ MAX_HISTORY_CHARS ∨
        (windowMessages
          (jsLast40 (history.filter (fun m => !(m.sender == .system))))).length = 1)) ∧
    (windowMessages
      (jsLast40 ((List.replicate 50 oneCharMsg).filter
        (fun m => !(m.sender == .system))))).length = 40 ∧
    windowMessages (jsLast40 [oneCharMsg, bigMsg]) = [bigMsg] := by
  refine ⟨fun history => ?_, by decide, ?_⟩
  · refine ⟨(windowMessages_suffix _).trans (jsLast40_suffix _),
      le_trans (windowMessages_length_le _) (jsLast40_length _),
      fun hne => windowMessages_ne_nil _ (jsLast40_ne_nil _ hne), ?_⟩
    exact windowGo_budget _ 0 [] rfl (Or.inl (by simp [totalTextLen]))
  · have hlen : bigMsg.text.length = 12001 := by
      show (String.mk (List.replicate 12001 'a')).length = 12001
      rw [String.length]
      exact List.length_replicate 12001 'a'
    have hz : oneCharMsg.text.length = 1 := by decide
    have h1 : jsLast40 [oneCharMsg, bigMsg] = [oneCharMsg, bigMsg] := rfl
    rw [h1]
    show windowGo [oneCharMsg, bigMsg].reverse 0 [] = [bigMsg]
    have s1 : windowGo [oneCharMsg, bigMsg].reverse 0 [] =
        windowGo [oneCharMsg] (0 + bigMsg.text.length) [bigMsg] := by
      simp [windowGo]
    rw [s1]
    simp [windowGo, hz, hlen, MAX_HISTORY_CHARS]

/-- Witness for claim C5's inner hypothesis: the one-message history
`[botHiMsg]` filters to a non-empty list and its window is non-empty. -/
theorem c5_windowing_witness :
    [botHiMsg].filter (fun m => !(m.sender == Sender.system)) ≠ [] ∧
    windowMessages
      (jsLast40 ([botHiMsg].filter (fun m => !(m.sender == Sender.system)))) ≠ [] :=
  ⟨by decide, (c5_windowing.1 [botHiMsg]).2.2.1 (by decide)⟩

/-! Non-emptiness and content-non-emptiness of the normalization pipeline
(claims C4 and C1). -/

theorem strAppend_ne_empty (a b : String) (h : a ≠ "") : a ++ b ≠ "" := by
  intro heq
  apply h
  apply String.ext
  have hd := congrArg String.data heq
  rw [String.data_append] at hd
  have : a.data ++ b.data = [] := hd
  simpa using (List.append_eq_nil.mp this).1

theorem wrapContent_ne_empty (m : Message) : wrapContent m ≠ "" := by
  unfold wrapContent
  apply strAppend_ne_empty
  apply strAppend_ne_empty
  apply strAppend_ne_empty
  apply strAppend_ne_empty
  apply strAppend_ne_empty
  apply strAppend_ne_empty
  decide

/-- All turns of a list have non-empty content. -/
def allContentNE (l : List Turn) : Prop := ∀ t ∈ l, t.content ≠ ""

theorem mergeStep_nil_eq (m : Turn) : mergeStep [] m = [m] := rfl

theorem mergeStep_cons_eq (a : Turn) (rest : List Turn) (m : Turn) :
    mergeStep (a :: rest) m =
      if a.role == m.role then
        { role := a.role, content := a.content ++ "\n\n" ++ m.content } :: rest
      else m :: a :: rest := rfl

theorem repairStart_cons_eq (t : Turn) (rest : List Turn) :
    repairStart (t :: rest) =
      if t.role == .assistant then
        { role := Role.user, content := "[PREVIOUS CONTEXT]:\n" ++ t.content } :: rest
      else t :: rest := rfl

theorem mergeStep_ne_nil (acc : List Turn) (m : Turn) : mergeStep acc m ≠ [] := by
  rcases acc with _ | ⟨a, rest⟩
  · simp [mergeStep_nil_eq]
  · rw [mergeStep_cons_eq]
    by_cases hr : (a.role == m.role) = true
    · simp [hr]
    · simp [hr]

theorem foldl_mergeStep_ne_nil (ms : List Turn) (acc : List Turn) (h : acc ≠ []) :
    ms.foldl mergeStep acc ≠ [] := by
  induction ms generalizing acc with
  | nil => exact h
  | cons m rest ih => exact ih _ (mergeStep_ne_nil acc m)

theorem mergeRuns_ne_nil (ms : List Turn) (h : ms ≠ []) : mergeRuns ms ≠ [] := by
  unfold mergeRuns
  rcases ms with _ | ⟨m, rest⟩
  · exact absurd rfl h
  · have hstep : (m :: rest).foldl mergeStep [] = rest.foldl mergeStep [m] := rfl
    rw [hstep]
    simpa using foldl_mergeStep_ne_nil rest [m] (by simp)

theorem mergeStep_content (acc : List Turn) (m : Turn)
    (ha : allContentNE acc) (hm : m.content ≠ "") : allContentNE (mergeStep acc m) := by
  rcases acc with _ | ⟨a, rest⟩
  · intro t ht
    rw [mergeStep_nil_eq] at ht
    simp at ht
    subst ht
    exact hm
  · intro t ht
    rw [mergeStep_cons_eq] at ht
    by_cases hr : (a.role == m.role) = true
    · rw [if_pos hr] at ht
      rcases List.mem_cons.mp ht with hthead | htrest
      · subst hthead
        exact strAppend_ne_empty _ _ (strAppend_ne_empty _ _ (ha a (by simp)))
      · exact ha t (List.mem_cons_of_mem a htrest)
    · rw [if_neg hr] at ht
      rcases List.mem_cons.mp ht with hthead | htrest
      · subst hthead
        exact hm
      · exact ha t htrest

theorem foldl_mergeStep_content (ms : List Turn) (acc : List Turn)
    (ha : allContentNE acc) (hm : allContentNE ms) :
    allContentNE (ms.foldl mergeStep acc) := by
  induction ms generalizing acc with
  | nil => exact ha
  | cons m rest ih =>
    exact ih _ (mergeStep_content acc m ha (hm m (by simp)))
      (fun t ht => hm t (List.mem_cons_of_mem m ht))

theorem mergeRuns_content (ms : List Turn) (hm : allContentNE ms) :
    allContentNE (mergeRuns ms) := by
  intro t ht
  exact foldl_mergeStep_content ms [] (by intro u hu; simp at hu) hm t
    (by simpa [mergeRuns] using ht)

theorem repairStart_ne_nil (l : List Turn) (h : l ≠ []) : repairStart l ≠ [] := by
  rcases l with _ | ⟨t, rest⟩
  · exact absurd rfl h
  · rw [repairStart_cons_eq]
    by_cases hr : (t.role == Role.assistant) = true
    · simp [hr]
    · simp [hr]

theorem repairStart_content (l : List Turn) (h : allContentNE l) :
    allContentNE (repairStart l) := by
  rcases l with _ | ⟨t, rest⟩
  · exact h
  · intro u hu
    rw [repairStart_cons_eq] at hu
    by_cases hr : (t.role == Role.assistant) = true
    · rw [if_pos hr] at hu
      rcases List.mem_cons.mp hu with huh | hur
      · subst huh
        exact strAppend_ne_empty _ _ (by decide)
      · exact h u (List.mem_cons_of_mem t hur)
    · rw [if_neg hr] at hu
      exact h u hu

theorem repairEnd_ne_nil (l : List Turn) (h : l ≠ []) : repairEnd l ≠ [] := by
  unfold repairEnd
  split
  · split
    · split
      · split
        · simp
        · exact h
      · exact h
    · exact h
  · split
    · split
      · simp
      · exact h
    · exact h

theorem repairEnd_content (l : List Turn) (h : allContentNE l) :
    allContentNE (repairEnd l) := by
  unfold repairEnd
  split
  · rename_i hlen
    split
    · rename_i last hlast
      split
      · split
        · rename_i prev hprev
          intro t ht
          rcases List.mem_append.mp ht with hd | hs
          · exact h t ((List.dropLast_sublist _).subset ((List.dropLast_sublist _).subset hd))
          · simp at hs
            subst hs
            have hprevmem : prev ∈ l.dropLast := by
              have heq := List.dropLast_append_getLast? prev
                (show prev ∈ l.dropLast.getLast? by rw [hprev]; rfl)
              rw [← heq]
              simp
            exact strAppend_ne_empty _ _ (strAppend_ne_empty _ _
              (h prev ((List.dropLast_sublist _).subset hprevmem)))
        · exact h
      · exact h
    · exact h
  · split
    · rename_i only honly
      split
      · intro t ht
        simp at ht
        subst ht
        exact strAppend_ne_empty _ _ (by decide)
      · exact h
    · exact h

/-- Claim C4 (amended): for every history containing at least one
non-system message, and every provider kind, `mapHistory` returns a
non-empty turn sequence, and every turn of the output has non-empty
content.  (A non-empty history of system messages alone yields an empty
output, so the claim's original "non-empty input" hypothesis fails — see
the counterexample.) -/
theorem c4_nonempty_amended (history : List Message) (provider : Provider)
    (h : ∃ m ∈ history, m.sender ≠ Sender.system) :
    mapHistory history provider ≠ [] ∧
    ∀ t ∈ mapHistory history provider, t.content ≠ "" := by
  obtain ⟨m, hm, hs⟩ := h
  have hne : history ≠ [] := List.ne_nil_of_mem hm
  have hfil : m ∈ history.filter (fun x => !(x.sender == Sender.system)) :=
    List.mem_filter.mpr ⟨hm, by simpa [beq_eq_false_iff_ne] using hs⟩
  have hfs : history.filter (fun x => !(x.sender == Sender.system)) ≠ [] :=
    List.ne_nil_of_mem hfil
  have hw := windowMessages_ne_nil _ (jsLast40_ne_nil _ hfs)
  have hmapne : (windowMessages (jsLast40 (history.filter
      (fun x => !(x.sender == Sender.system))))).map (mkTurn provider) ≠ [] := by
    simpa using hw
  have hmapcontent : allContentNE ((windowMessages (jsLast40 (history.filter
      (fun x => !(x.sender == Sender.system))))).map (mkTurn provider)) := by
    intro t ht
    obtain ⟨msg, hmsg, hteq⟩ := List.mem_map.mp ht
    rw [← hteq]
    exact wrapContent_ne_empty msg
  have hshape : mapHistory history provider =
      if !(provider == Provider.gemini) then
        repairEnd (repairStart (mergeRuns ((windowMessages (jsLast40 (history.filter
          (fun x => !(x.sender == Sender.system))))).map (mkTurn provider))))
      else
        mergeRuns ((windowMessages (jsLast40 (history.filter
          (fun x => !(x.sender == Sender.system))))).map (mkTurn provider)) := by
    unfold mapHistory
    rw [if_neg (by simp [hne])]
  rw [hshape]
  by_cases hg : (provider == Provider.gemini) = true
  · rw [if_neg (by simp [hg])]
    exact ⟨mergeRuns_ne_nil _ hmapne, mergeRuns_content _ hmapcontent⟩
  · rw [if_pos (by simp [hg])]
    refine ⟨repairEnd_ne_nil _ (repairStart_ne_nil _ (mergeRuns_ne_nil _ hmapne)), ?_⟩
    exact repairEnd_content _ (repairStart_content _ (mergeRuns_content _ hmapcontent))

/-- Witness for claim C4's amended hypothesis at the concrete history
`[botHiMsg]` and provider `openai`. -/
theorem c4_nonempty_amended_witness :
    mapHistory [botHiMsg] Provider.openai ≠ [] ∧
    ∀ t ∈ mapHistory [botHiMsg] Provider.openai, t.content ≠ "" :=
  c4_nonempty_amended [botHiMsg] .openai ⟨botHiMsg, by simp, by decide⟩

/-! Role-alternation structure of the repaired pipeline (claim C1). -/

theorem foldl_mergeStep_chain (ms acc : List Turn)
    (hacc : List.Chain' (fun a b : Turn => a.role ≠ b.role) acc) :
    List.Chain' (fun a b : Turn => a.role ≠ b.role) (ms.foldl mergeStep acc) := by
  induction ms generalizing acc with
  | nil => exact hacc
  | cons m rest ih =>
    refine ih _ ?_
    rcases acc with _ | ⟨a, as⟩
    · simp [mergeStep_nil_eq]
    · rw [mergeStep_cons_eq]
      by_cases hr : (a.role == m.role) = true
      · rw [if_pos hr]
        rcases as with _ | ⟨b, bs⟩
        · simp
        · rw [List.chain'_cons] at hacc ⊢
          exact ⟨by simpa using hacc.1, hacc.2⟩
      · rw [if_neg hr]
        rw [List.chain'_cons]
        exact ⟨fun heq => hr (by simp [heq]), hacc⟩

theorem mergeRuns_chain (ms : List Turn) :
    List.Chain' (fun a b : Turn => a.role ≠ b.role) (mergeRuns ms) := by
  unfold mergeRuns
  rw [List.chain'_reverse]
  exact (foldl_mergeStep_chain ms [] (by simp)).imp (fun a b h => Ne.symm h)

theorem foldl_mergeStep_roles (P : Role → Prop) :
    ∀ (ms acc : List Turn), (∀ t ∈ acc, P t.role) → (∀ t ∈ ms, P t.role) →
      ∀ t ∈ ms.foldl mergeStep acc, P t.role := by
  intro ms
  induction ms with
  | nil =>
    intro acc hacc _
    exact hacc
  | cons m rest ih =>
    intro acc hacc hms
    refine ih _ ?_ (fun t ht => hms t (List.mem_cons_of_mem m ht))
    intro t ht
    rcases acc with _ | ⟨a, as⟩
    · rw [mergeStep_nil_eq] at ht
      simp at ht
      subst ht
      exact hms t (by simp)
    · rw [mergeStep_cons_eq] at ht
      by_cases hr : (a.role == m.role) = true
      · rw [if_pos hr] at ht
        rcases List.mem_cons.mp ht with hh | hrest
        · subst hh
          exact hacc a (by simp)
        · exact hacc t (List.mem_cons_of_mem a hrest)
      · rw [if_neg hr] at ht
        rcases List.mem_cons.mp ht with hh | hrest
        · subst hh
          exact hms t (by simp)
        · exact hacc t hrest

theorem mergeRuns_roles (P : Role → Prop) (ms : List Turn)
    (hms : ∀ t ∈ ms, P t.role) : ∀ t ∈ mergeRuns ms, P t.role := by
  intro t ht
  exact foldl_mergeStep_roles P ms [] (by intro u hu; simp at hu) hms t
    (by simpa [mergeRuns] using ht)

theorem listShape_concat (s : Turn) (M : List Turn) (p a : Turn) :
    s :: (M ++ [p] ++ [a]) = (s :: (M ++ [p])) ++ [a] := by simp

theorem roleFor_binary (provider : Provider) (hg : provider ≠ .gemini) (s : Sender) :
    roleFor provider s = Role.user ∨ roleFor provider s = Role.assistant := by
  unfold roleFor
  rw [if_neg (by simpa using hg)]
  by_cases hu : (s == Sender.user) = true
  · rw [if_pos hu]
    exact Or.inl rfl
  · rw [if_neg hu]
    exact Or.inr rfl

theorem repairEnd_single_eq (t : Turn) :
    repairEnd [t] =
      if t.role == .assistant then
        [{ role := Role.user, content := "[DIALOGUE CONTEXT]:\n" ++ t.content }]
      else [t] := rfl

theorem repairEnd_last_user_eq (s : Turn) (L : List Turn) (a : Turn)
    (ha : (a.role == Role.assistant) = false) :
    repairEnd (s :: (L ++ [a])) = s :: (L ++ [a]) := by
  have hlen : (s :: (L ++ [a])).length > 1 := by
    simp only [List.length_cons, List.length_append, List.length_singleton]
    omega
  have h1 : (s :: (L ++ [a])).getLast? = some a := by
    rw [show s :: (L ++ [a]) = (s :: L) ++ [a] by simp]
    exact List.getLast?_concat _
  unfold repairEnd
  rw [if_pos hlen, h1]
  simp [ha]

theorem repairEnd_pair_eq (s a : Turn) (ha : (a.role == Role.assistant) = true) :
    repairEnd [s, a] =
      [{ role := s.role,
         content := s.content ++ "\n\n[FOLLOW-UP RESPONSE]:\n" ++ a.content }] := by
  unfold repairEnd
  rw [if_pos (by simp)]
  have h1 : ([s, a] : List Turn).getLast? = some a := rfl
  rw [h1]
  simp [ha]

theorem repairEnd_concat2_eq (s : Turn) (M : List Turn) (p a : Turn)
    (ha : (a.role == Role.assistant) = true) :
    repairEnd (s :: (M ++ [p] ++ [a])) =
      (s :: M) ++ [{ role := p.role,
                     content := p.content ++ "\n\n[FOLLOW-UP RESPONSE]:\n" ++ a.content }] := by
  have hlen : (s :: (M ++ [p] ++ [a])).length > 1 := by
    simp only [List.length_cons, List.length_append, List.length_singleton]
    omega
  have h1 : (s :: (M ++ [p] ++ [a])).getLast? = some a := by
    rw [listShape_concat]
    exact List.getLast?_concat _
  have h2 : (s :: (M ++ [p] ++ [a])).dropLast = s :: (M ++ [p]) := by
    rw [listShape_concat]
    exact List.dropLast_concat
  have h3 : (s :: (M ++ [p])).getLast? = some p := by
    rw [show s :: (M ++ [p]) = (s :: M) ++ [p] by simp]
    exact List.getLast?_concat _
  have h4 : (s :: (M ++ [p])).dropLast = s :: M := by
    rw [show s :: (M ++ [p]) = (s :: M) ++ [p] by simp]
    exact List.dropLast_concat
  unfold repairEnd
  rw [if_pos hlen, h1]
  simp only [ha, if_true, h2, h3, h4]

theorem repairEnd_spec (s : Turn) (rest : List Turn) (hs : s.role = Role.user)
    (hbin : ∀ t ∈ rest, t.role = Role.user ∨ t.role = Role.assistant)
    (hch : List.Chain' (fun a b : Turn => a.role ≠ b.role) rest) :
    (repairEnd (s :: rest)).head?.map Turn.role = some Role.user ∧
    (repairEnd (s :: rest)).getLast?.map Turn.role = some Role.user ∧
    List.Chain' (fun a b : Turn => a.role ≠ b.role) (repairEnd (s :: rest)).tail := by
  rcases List.eq_nil_or_concat rest with hrest | ⟨L, a, hrest⟩
  · subst hrest
    rw [repairEnd_single_eq, if_neg (by simp [hs])]
    exact ⟨by simp [hs], by simp [hs], by simp⟩
  · subst hrest
    simp only [List.concat_eq_append] at hbin hch ⊢
    rcases hbin a (by simp) with hau | haa
    · rw [repairEnd_last_user_eq s L a (by simp [hau])]
      refine ⟨by simp [hs], ?_, ?_⟩
      · rw [show s :: (L ++ [a]) = (s :: L) ++ [a] by simp, List.getLast?_concat]
        simp [hau]
      · simpa using hch
    · rcases List.eq_nil_or_concat L with hL | ⟨M, p, hL⟩
      · subst hL
        simp only [List.nil_append] at hbin hch ⊢
        have hpair : repairEnd [s, a] =
            [{ role := s.role,
               content := s.content ++ "\n\n[FOLLOW-UP RESPONSE]:\n" ++ a.content }] :=
          repairEnd_pair_eq s a (by simp [haa])
        rw [hpair]
        exact ⟨by simp [hs], by simp [hs], by simp⟩
      · subst hL
        simp only [List.concat_eq_append] at hbin hch ⊢
        have hch2 : List.Chain' (fun x y : Turn => x.role ≠ y.role) (M ++ [p, a]) := by
          simpa [List.append_assoc] using hch
        obtain ⟨hchM, hchpa, hlink⟩ := List.chain'_append.mp hch2
        have hpa := List.chain'_pair.mp hchpa
        have hprole : p.role = Role.user := by
          rcases hbin p (by simp) with h | h
          · exact h
          · exact absurd (h.trans haa.symm) hpa
        rw [repairEnd_concat2_eq s M p a (by simp [haa])]
        refine ⟨by simp [hs], ?_, ?_⟩
        · rw [List.getLast?_concat]
          simp [hprole]
        · have htail : ((s :: M) ++
              [({ role := p.role,
                  content := p.content ++ "\n\n[FOLLOW-UP RESPONSE]:\n" ++ a.content } : Turn)]).tail =
              M ++ [({ role := p.role,
                       content := p.content ++ "\n\n[FOLLOW-UP RESPONSE]:\n" ++ a.content } : Turn)] := by
            simp
          rw [htail]
          refine List.chain'_append.mpr ⟨hchM, by simp, ?_⟩
          intro x hx y hy
          simp at hy
          subst hy
          have := hlink x hx p (by simp)
          simpa using this

/-- Claim C1 (amended): for a non-Gemini provider, a non-empty `mapHistory`
output begins with a `user` turn, ends with a `user` turn, and its roles
strictly alternate from the second turn onward; the only permitted
deviation from full alternation is that the first two turns may both be
`user` turns (produced when the merged sequence began with an assistant
turn, whose start repair replaces rather than merges — see the
counterexample).  In particular no two consecutive assistant turns ever
occur. -/
theorem c1_alternation_amended (history : List Message) (provider : Provider)
    (hp : provider ≠ Provider.gemini) (hne : mapHistory history provider ≠ []) :
    (mapHistory history provider).head?.map Turn.role = some Role.user ∧
    (mapHistory history provider).getLast?.map Turn.role = some Role.user ∧
    List.Chain' (fun a b : Turn => a.role ≠ b.role) (mapHistory history provider).tail := by
  have hg : (!(provider == Provider.gemini)) = true := by simpa using hp
  by_cases hh : history.isEmpty = true
  · exact absurd (by unfold mapHistory; rw [if_pos hh]) hne
  · have hshape : mapHistory history provider =
        repairEnd (repairStart (mergeRuns ((windowMessages (jsLast40 (history.filter
          (fun m => !(m.sender == Sender.system))))).map (mkTurn provider)))) := by
      unfold mapHistory
      rw [if_neg hh]
      simp only [hg, if_true]
    have hMbin : ∀ t ∈ mergeRuns ((windowMessages (jsLast40 (history.filter
        (fun m => !(m.sender == Sender.system))))).map (mkTurn provider)),
        t.role = Role.user ∨ t.role = Role.assistant := by
      refine mergeRuns_roles (fun r => r = Role.user ∨ r = Role.assistant) _ ?_
      intro t ht
      obtain ⟨msg, _, hteq⟩ := List.mem_map.mp ht
      rw [← hteq]
      exact roleFor_binary provider hp msg.sender
    have hMch := mergeRuns_chain ((windowMessages (jsLast40 (history.filter
      (fun m => !(m.sender == Sender.system))))).map (mkTurn provider))
    rcases hM : mergeRuns ((windowMessages (jsLast40 (history.filter
        (fun m => !(m.sender == Sender.system))))).map (mkTurn provider)) with _ | ⟨t, rest⟩
    · rw [hM] at hshape
      exact absurd hshape hne
    · rw [hM] at hshape hMbin hMch
      rw [hshape, repairStart_cons_eq]
      by_cases htr : (t.role == Role.assistant) = true
      · rw [if_pos htr]
        exact repairEnd_spec _ rest rfl
          (fun u hu => hMbin u (List.mem_cons_of_mem t hu))
          ((List.chain'_cons'.mp hMch).2)
      · rw [if_neg htr]
        have htu : t.role = Role.user := by
          rcases hMbin t (by simp) with h | h
          · exact h
          · exact absurd (by simp [h]) htr
        exact repairEnd_spec t rest htu
          (fun u hu => hMbin u (List.mem_cons_of_mem t hu))
          ((List.chain'_cons'.mp hMch).2)

/-- Witness for claim C1's amended hypotheses at the concrete history
`[aiXMsg, userYMsg]` and provider `openai`. -/
theorem c1_alternation_amended_witness :
    (mapHistory [aiXMsg, userYMsg] Provider.openai).head?.map Turn.role = some Role.user ∧
    (mapHistory [aiXMsg, userYMsg] Provider.openai).getLast?.map Turn.role
      = some Role.user ∧
    List.Chain' (fun a b : Turn => a.role ≠ b.role)
      (mapHistory [aiXMsg, userYMsg] Provider.openai).tail :=
  c1_alternation_amended [aiXMsg, userYMsg] .openai (by decide) (by decide)

/-! Line structure of `cleanResponse` (claim C3). -/

theorem splitLinesC_cons_eq (c : Char) (rest : List Char) :
    splitLinesC (c :: rest) =
      if c = '\n' then [] :: splitLinesC rest
      else
        match splitLinesC rest with
        | [] => [[c]]
        | l :: ls => (c :: l) :: ls := rfl

theorem splitLinesC_ne_nil (s : List Char) : splitLinesC s ≠ [] := by
  induction s with
  | nil => simp [splitLinesC]
  | cons c rest ih =>
    rw [splitLinesC_cons_eq]
    by_cases hc : c = '\n'
    · simp [hc]
    · rw [if_neg hc]
      rcases h : splitLinesC rest with _ | ⟨x, xs⟩
      · exact absurd h ih
      · simp

theorem splitLinesC_cons_newline (rest : List Char) :
    splitLinesC ('\n' :: rest) = [] :: splitLinesC rest := by
  rw [splitLinesC_cons_eq]
  simp

theorem splitLinesC_cons_other (c : Char) (rest : List Char) (hc : c ≠ '\n') :
    splitLinesC (c :: rest) =
      (c :: (splitLinesC rest).headD []) :: (splitLinesC rest).tail := by
  rw [splitLinesC_cons_eq, if_neg hc]
  rcases h : splitLinesC rest with _ | ⟨x, xs⟩
  · exact absurd h (splitLinesC_ne_nil rest)
  · simp

theorem splitLinesC_no_newline (s : List Char) : ∀ l ∈ splitLinesC s, '\n' ∉ l := by
  induction s with
  | nil =>
    intro l hl
    simp [splitLinesC] at hl
    subst hl
    simp
  | cons c rest ih =>
    intro l hl
    by_cases hc : c = '\n'
    · subst hc
      rw [splitLinesC_cons_newline] at hl
      rcases List.mem_cons.mp hl with h | h
      · subst h
        simp
      · exact ih l h
    · rw [splitLinesC_cons_other _ _ hc] at hl
      rcases List.mem_cons.mp hl with h | h
      · subst h
        intro hmem
        rcases List.mem_cons.mp hmem with h2 | h2
        · exact hc h2.symm
        · have hhead : (splitLinesC rest).headD [] ∈ splitLinesC rest := by
            rcases hr : splitLinesC rest with _ | ⟨x, xs⟩
            · exact absurd hr (splitLinesC_ne_nil rest)
            · simp
          exact ih _ hhead h2
      · exact ih l (List.mem_of_mem_tail h)

theorem splitLinesC_chars (s : List Char) : ∀ l ∈ splitLinesC s, ∀ c ∈ l, c ∈ s := by
  induction s with
  | nil =>
    intro l hl
    simp [splitLinesC] at hl
    subst hl
    simp
  | cons c rest ih =>
    intro l hl d hd
    by_cases hc : c = '\n'
    · subst hc
      rw [splitLinesC_cons_newline] at hl
      rcases List.mem_cons.mp hl with h | h
      · subst h
        simp at hd
      · exact List.mem_cons_of_mem _ (ih l h d hd)
    · rw [splitLinesC_cons_other _ _ hc] at hl
      rcases List.mem_cons.mp hl with h | h
      · subst h
        rcases List.mem_cons.mp hd with h2 | h2
        · subst h2
          simp
        · have hhead : (splitLinesC rest).headD [] ∈ splitLinesC rest := by
            rcases hr : splitLinesC rest with _ | ⟨x, xs⟩
            · exact absurd hr (splitLinesC_ne_nil rest)
            · simp
          exact List.mem_cons_of_mem _ (ih _ hhead d h2)
      · exact List.mem_cons_of_mem _ (ih l (List.mem_of_mem_tail h) d hd)

theorem splitLinesC_single (l : List Char) (h : '\n' ∉ l) : splitLinesC l = [l] := by
  induction l with
  | nil => rfl
  | cons c rest ih =>
    have hc : c ≠ '\n' := fun hcc => h (hcc ▸ List.mem_cons_self c rest)
    rw [splitLinesC_cons_other _ _ hc, ih (fun hm => h (List.mem_cons_of_mem c hm))]
    simp

theorem splitLinesC_prepend_line (l z : List Char) (h : '\n' ∉ l) :
    splitLinesC (l ++ '\n' :: z) = l :: splitLinesC z := by
  induction l with
  | nil =>
    simp [splitLinesC_cons_newline]
  | cons c rest ih =>
    have hc : c ≠ '\n' := fun hcc => h (hcc ▸ List.mem_cons_self c rest)
    rw [List.cons_append, splitLinesC_cons_other _ _ hc,
      ih (fun hm => h (List.mem_cons_of_mem c hm))]
    simp

theorem joinLinesC_single (l : List Char) : joinLinesC [l] = l := by
  simp [joinLinesC]

theorem joinLinesC_cons2 (l l2 : List Char) (rest : List (List Char)) :
    joinLinesC (l :: l2 :: rest) = l ++ '\n' :: joinLinesC (l2 :: rest) := by
  simp [joinLinesC, List.intersperse]

theorem split_join (ls : List (List Char)) (hne : ls ≠ [])
    (hnl : ∀ l ∈ ls, '\n' ∉ l) : splitLinesC (joinLinesC ls) = ls := by
  induction ls with
  | nil => exact absurd rfl hne
  | cons l rest ih =>
    rcases rest with _ | ⟨l2, rest2⟩
    · rw [joinLinesC_single]
      exact splitLinesC_single l (hnl l (by simp))
    · rw [joinLinesC_cons2, splitLinesC_prepend_line _ _ (hnl l (by simp))]
      rw [ih (by simp) (fun x hx => hnl x (List.mem_cons_of_mem l hx))]

theorem splitLinesC_append (a b : List Char) :
    splitLinesC (a ++ b) =
      (splitLinesC a).dropLast ++
        (((splitLinesC a).getLastD [] ++ (splitLinesC b).headD []) ::
          (splitLinesC b).tail) := by
  induction a with
  | nil =>
    rcases h : splitLinesC b with _ | ⟨x, xs⟩
    · exact absurd h (splitLinesC_ne_nil b)
    · simp [splitLinesC, h]
  | cons c a ih =>
    by_cases hc : c = '\n'
    · subst hc
      rw [List.cons_append, splitLinesC_cons_newline, ih, splitLinesC_cons_newline]
      rcases h : splitLinesC a with _ | ⟨x, xs⟩
      · exact absurd h (splitLinesC_ne_nil a)
      · simp
    · rw [List.cons_append, splitLinesC_cons_other _ _ hc, ih,
        splitLinesC_cons_other _ _ hc]
      rcases h : splitLinesC a with _ | ⟨x, xs⟩
      · exact absurd h (splitLinesC_ne_nil a)
      · rcases xs with _ | ⟨y, ys⟩
        · simp
        · simp

theorem tail_lines_append (p u : List Char) :
    ∀ l ∈ (splitLinesC u).tail, l ∈ (splitLinesC (p ++ u)).tail := by
  induction p with
  | nil => exact fun l hl => hl
  | cons c p ih =>
    intro l hl
    by_cases hc : c = '\n'
    · subst hc
      rw [List.cons_append, splitLinesC_cons_newline]
      simp only [List.tail_cons]
      exact List.mem_of_mem_tail (ih l hl)
    · rw [List.cons_append, splitLinesC_cons_other _ _ hc]
      simp only [List.tail_cons]
      have := ih l hl
      rcases h : splitLinesC (p ++ u) with _ | ⟨x, xs⟩
      · exact absurd h (splitLinesC_ne_nil _)
      · rw [h] at this
        simpa using this

theorem takeWhile_append_of_drop_ne (p : Char → Bool) (l w : List Char)
    (h : l.dropWhile p ≠ []) :
    (l ++ w).takeWhile p = l.takeWhile p ∧
    (l ++ w).dropWhile p = l.dropWhile p ++ w := by
  induction l with
  | nil => exact absurd rfl h
  | cons c rest ih =>
    by_cases hc : p c = true
    · rw [List.dropWhile_cons_of_pos hc] at h
      obtain ⟨h1, h2⟩ := ih h
      constructor
      · rw [List.cons_append, List.takeWhile_cons_of_pos hc,
          List.takeWhile_cons_of_pos hc, h1]
      · rw [List.cons_append, List.dropWhile_cons_of_pos hc,
          List.dropWhile_cons_of_pos hc, h2]
    · have hc2 : p c = false := by
        rcases hp : p c
        · rfl
        · exact absurd hp hc
      constructor
      · rw [List.cons_append, List.takeWhile_cons_of_neg (by simp [hc2]),
          List.takeWhile_cons_of_neg (by simp [hc2])]
      · rw [List.cons_append, List.dropWhile_cons_of_neg (by simp [hc2]),
          List.dropWhile_cons_of_neg (by simp [hc2]), List.cons_append]

theorem dropWhile_append_all (p : Char → Bool) (x y : List Char)
    (hx : ∀ c ∈ x, p c = true) : (x ++ y).dropWhile p = y.dropWhile p := by
  induction x with
  | nil => rfl
  | cons c rest ih =>
    rw [List.cons_append, List.dropWhile_cons_of_pos (hx c (by simp))]
    exact ih (fun d hd => hx d (List.mem_cons_of_mem c hd))

theorem stripKw_append (kw x w rest : List Char) (h : stripKw kw x = some rest) :
    stripKw kw (x ++ w) = some (rest ++ w) := by
  induction kw generalizing x rest with
  | nil =>
    simp [stripKw] at h
    subst h
    rfl
  | cons k ks ih =>
    rcases x with _ | ⟨c, cs⟩
    · simp [stripKw] at h
    · rw [List.cons_append]
      by_cases hkc : (k.toLower == c.toLower) = true
      · rw [show stripKw (k :: ks) (c :: cs) = if k.toLower == c.toLower then
            stripKw ks cs else none from rfl, if_pos hkc] at h
        rw [show stripKw (k :: ks) (c :: (cs ++ w)) = if k.toLower == c.toLower then
            stripKw ks (cs ++ w) else none from rfl, if_pos hkc]
        exact ih cs rest h
      · rw [show stripKw (k :: ks) (c :: cs) = if k.toLower == c.toLower then
            stripKw ks cs else none from rfl, if_neg hkc] at h
        exact absurd h (by simp)

theorem dropTrailWs_append_ws (rest w : List Char)
    (hw : ∀ c ∈ w, isWsC c = true) : dropTrailWs (rest ++ w) = dropTrailWs rest := by
  unfold dropTrailWs
  rw [List.reverse_append]
  rw [dropWhile_append_all isWsC w.reverse rest.reverse
    (fun c hc => hw c (List.mem_reverse.mp hc))]

theorem tagLineMatch_eq (kw l : List Char) : tagLineMatch kw l =
    if (l.takeWhile isHy).isEmpty then false
    else
      match stripKw kw ((l.dropWhile isHy).dropWhile isWsC) with
      | none => false
      | some rest =>
        match (dropTrailWs rest).getLast? with
        | some c => isHy c
        | none => false := rfl

theorem tagLineMatch_append_ws (kw : List Char) (hk : kw ≠ []) (l w : List Char)
    (hw : ∀ c ∈ w, isWsC c = true) (h : tagLineMatch kw l = true) :
    tagLineMatch kw (l ++ w) = true := by
  rw [tagLineMatch_eq] at h
  rw [tagLineMatch_eq]
  by_cases hhs : (l.takeWhile isHy).isEmpty = true
  · rw [if_pos hhs] at h
    exact absurd h (by simp)
  · rw [if_neg hhs] at h
    have hdne : l.dropWhile isHy ≠ [] := by
      intro hnil
      rw [hnil] at h
      rcases kw with _ | ⟨k, ks⟩
      · exact hk rfl
      · simp [stripKw] at h
    obtain ⟨ht1, ht2⟩ := takeWhile_append_of_drop_ne isHy l w hdne
    rw [ht1, if_neg hhs, ht2]
    have hr2ne : (l.dropWhile isHy).dropWhile isWsC ≠ [] := by
      intro hnil
      rw [hnil] at h
      rcases kw with _ | ⟨k, ks⟩
      · exact hk rfl
      · simp [stripKw] at h
    obtain ⟨_, hw2⟩ := takeWhile_append_of_drop_ne isWsC (l.dropWhile isHy) w hr2ne
    rw [hw2]
    rcases hstrip : stripKw kw ((l.dropWhile isHy).dropWhile isWsC) with _ | rest
    · rw [hstrip] at h
      simp at h
    · rw [hstrip] at h
      rw [stripKw_append kw _ w rest hstrip]
      show (match (dropTrailWs (rest ++ w)).getLast? with
            | some c => isHy c
            | none => false) = true
      rw [dropTrailWs_append_ws rest w hw]
      exact h

theorem tagLineMatch_nil (kw : List Char) : tagLineMatch kw [] = false := rfl

/-- Every line of the output of `replaceTagLines kwEND ∘ replaceTagLines
kwSOURCE` fails both patterns. -/
theorem replaced_lines_clean (s : List Char) :
    ∀ e ∈ splitLinesC (replaceTagLines kwEND (replaceTagLines kwSOURCE s)),
      tagLineMatch kwSOURCE e = false ∧ tagLineMatch kwEND e = false := by
  have hnl1 : ∀ l ∈ (splitLinesC s).map
      (fun l => if tagLineMatch kwSOURCE l then [] else l), '\n' ∉ l := by
    intro l hl
    obtain ⟨l0, hl0, hleq⟩ := List.mem_map.mp hl
    by_cases hm : tagLineMatch kwSOURCE l0 = true
    · rw [← hleq, if_pos hm]
      simp
    · rw [← hleq, if_neg hm]
      exact splitLinesC_no_newline s l0 hl0
  have hne1 : (splitLinesC s).map
      (fun l => if tagLineMatch kwSOURCE l then [] else l) ≠ [] := by
    simpa using splitLinesC_ne_nil s
  have hsplit1 : splitLinesC (replaceTagLines kwSOURCE s) =
      (splitLinesC s).map (fun l => if tagLineMatch kwSOURCE l then [] else l) :=
    split_join _ hne1 hnl1
  intro e he
  rw [show replaceTagLines kwEND (replaceTagLines kwSOURCE s) =
      joinLinesC ((splitLinesC (replaceTagLines kwSOURCE s)).map
        (fun l => if tagLineMatch kwEND l then [] else l)) from rfl] at he
  rw [hsplit1] at he
  rw [split_join _ (by simpa using hne1) ?hnl] at he
  case hnl =>
    intro l hl
    obtain ⟨l0, hl0, hleq⟩ := List.mem_map.mp hl
    by_cases hm : tagLineMatch kwEND l0 = true
    · rw [← hleq, if_pos hm]
      simp
    · rw [← hleq, if_neg hm]
      exact hnl1 l0 hl0
  obtain ⟨l1, hl1, he1⟩ := List.mem_map.mp he
  obtain ⟨l0, hl0, he0⟩ := List.mem_map.mp hl1
  by_cases hm0 : tagLineMatch kwSOURCE l0 = true
  · rw [← he1, ← he0, if_pos hm0]
    by_cases hmE : tagLineMatch kwEND ([] : List Char) = true
    · rw [if_pos hmE]
      exact ⟨tagLineMatch_nil _, tagLineMatch_nil _⟩
    · rw [if_neg hmE]
      exact ⟨tagLineMatch_nil _, tagLineMatch_nil _⟩
  · rw [← he1, ← he0, if_neg hm0]
    by_cases hmE : tagLineMatch kwEND l0 = true
    · rw [if_pos hmE]
      exact ⟨tagLineMatch_nil _, tagLineMatch_nil _⟩
    · rw [if_neg hmE]
      exact ⟨by simpa using hm0, by simpa using hmE⟩

theorem dropLast_getLastD (A : List (List Char)) (h : A ≠ []) :
    A.dropLast ++ [A.getLastD []] = A := by
  rcases List.eq_nil_or_concat A with h0 | ⟨L, b, h0⟩
  · exact absurd h0 h
  · subst h0
    simp [List.concat_eq_append]

/-- Every line of `dropTrailWs u`'s tail is a line of `u`'s tail with some
trailing whitespace removed. -/
theorem trim_tail_lines (u : List Char) :
    ∀ l ∈ (splitLinesC (dropTrailWs u)).tail,
      ∃ e ∈ (splitLinesC u).tail, ∃ w, (∀ c ∈ w, isWsC c = true) ∧ e = l ++ w := by
  intro l hl
  have hu : u = dropTrailWs u ++ (u.reverse.takeWhile isWsC).reverse := by
    conv_lhs => rw [← List.reverse_reverse u,
      ← List.takeWhile_append_dropWhile (p := isWsC) (l := u.reverse)]
    rw [List.reverse_append]
    rfl
  have hq : ∀ c ∈ (u.reverse.takeWhile isWsC).reverse, isWsC c = true := by
    intro c hc
    exact List.mem_takeWhile_imp (List.mem_reverse.mp hc)
  have hstruct : splitLinesC u =
      (splitLinesC (dropTrailWs u)).dropLast ++
        (((splitLinesC (dropTrailWs u)).getLastD [] ++
          (splitLinesC ((u.reverse.takeWhile isWsC).reverse)).headD []) ::
          (splitLinesC ((u.reverse.takeWhile isWsC).reverse)).tail) := by
    conv_lhs => rw [hu]
    exact splitLinesC_append _ _
  have hlvne := splitLinesC_ne_nil (dropTrailWs u)
  have hlv := dropLast_getLastD (splitLinesC (dropTrailWs u)) hlvne
  have hheadq : (splitLinesC ((u.reverse.takeWhile isWsC).reverse)).headD [] ∈
      splitLinesC ((u.reverse.takeWhile isWsC).reverse) := by
    rcases hx : splitLinesC ((u.reverse.takeWhile isWsC).reverse) with _ | ⟨x, xs⟩
    · exact absurd hx (splitLinesC_ne_nil _)
    · simp
  have hwq : ∀ c ∈ (splitLinesC ((u.reverse.takeWhile isWsC).reverse)).headD [],
      isWsC c = true := by
    intro c hc
    exact hq c (splitLinesC_chars _ _ hheadq c hc)
  rcases hD : (splitLinesC (dropTrailWs u)).dropLast with _ | ⟨d0, ds⟩
  · have hlv1 : splitLinesC (dropTrailWs u) =
        [(splitLinesC (dropTrailWs u)).getLastD []] := by
      conv_lhs => rw [← hlv]
      rw [hD]
      rfl
    rw [hlv1] at hl
    simp at hl
  · have hlv2 : splitLinesC (dropTrailWs u) =
        (d0 :: ds) ++ [(splitLinesC (dropTrailWs u)).getLastD []] := by
      conv_lhs => rw [← hlv]
      rw [hD]
    have htail : (splitLinesC (dropTrailWs u)).tail =
        ds ++ [(splitLinesC (dropTrailWs u)).getLastD []] := by
      conv_lhs => rw [hlv2]
      rfl
    rw [htail] at hl
    rcases List.mem_append.mp hl with hds | hlast
    · refine ⟨l, ?_, [], by simp, by simp⟩
      rw [hstruct, hD]
      simp only [List.cons_append, List.tail_cons]
      exact List.mem_append_left _ hds
    · have hleq : l = (splitLinesC (dropTrailWs u)).getLastD [] :=
        List.mem_singleton.mp hlast
      refine ⟨(splitLinesC (dropTrailWs u)).getLastD [] ++
          (splitLinesC ((u.reverse.takeWhile isWsC).reverse)).headD [], ?_,
          (splitLinesC ((u.reverse.takeWhile isWsC).reverse)).headD [], hwq, ?_⟩
      · rw [hstruct, hD]
        simp only [List.cons_append, List.tail_cons]
        exact List.mem_append_right _ (by simp)
      · rw [hleq]

/-- Claim C3 fails on the code: for `x = " --- SOURCE: A ---"` (leading
space), `cleanResponse x` is not a fixed point of `cleanResponse` — the
final trim exposes a `--- SOURCE: ... ---` line that the next application
strips — and `cleanResponse x` contains a line that starts with hyphens,
continues with `SOURCE:`, and ends with hyphens. -/
theorem c3_counterexample :
    cleanResponse (cleanResponse " --- SOURCE: A ---") ≠
      cleanResponse " --- SOURCE: A ---" ∧
    (splitLinesC (cleanResponse " --- SOURCE: A ---").data).any
      (fun l => tagLineMatch kwSOURCE l) = true := by decide

/-- Claim C3 (amended): `cleanResponse` is not idempotent in general, but
no line of its output other than possibly the first fully matches either
stripping pattern — every line starting with hyphens, continuing (after
optional whitespace) with `SOURCE:` or `END`, and ending with hyphens
(modulo trailing whitespace) is removed, except that the final trim can
expose one such line at the very start of the result. -/
theorem c3_clean_amended (s : String) :
    ∀ l ∈ (splitLinesC (cleanResponse s).data).tail,
      tagLineMatch kwSOURCE l = false ∧ tagLineMatch kwEND l = false := by
  intro l hl
  by_cases hs : s = ""
  · subst hs
    rw [show cleanResponse "" = "" from rfl] at hl
    simp [show ("" : String).data = [] from rfl, splitLinesC] at hl
  · rw [show cleanResponse s = String.mk (jsTrimC (replaceTagLines kwEND
        (replaceTagLines kwSOURCE s.data))) from by
      unfold cleanResponse
      rw [if_neg hs]] at hl
    rw [show (String.mk (jsTrimC (replaceTagLines kwEND
        (replaceTagLines kwSOURCE s.data)))).data =
        jsTrimC (replaceTagLines kwEND (replaceTagLines kwSOURCE s.data)) from rfl] at hl
    obtain ⟨e, he, w, hwws, hew⟩ := trim_tail_lines
      ((replaceTagLines kwEND (replaceTagLines kwSOURCE s.data)).dropWhile isWsC) l hl
    have het : e ∈ (splitLinesC (replaceTagLines kwEND
        (replaceTagLines kwSOURCE s.data))).tail := by
      have hm := tail_lines_append
        ((replaceTagLines kwEND (replaceTagLines kwSOURCE s.data)).takeWhile isWsC)
        ((replaceTagLines kwEND (replaceTagLines kwSOURCE s.data)).dropWhile isWsC) e he
      rwa [List.takeWhile_append_dropWhile] at hm
    have heclean := replaced_lines_clean s.data e (List.mem_of_mem_tail het)
    constructor
    · by_contra hcon
      have hcon2 : tagLineMatch kwSOURCE l = true := by simpa using hcon
      have hup := tagLineMatch_append_ws kwSOURCE (by decide) l w hwws hcon2
      rw [← hew] at hup
      rw [heclean.1] at hup
      exact absurd hup (by simp)
    · by_contra hcon
      have hcon2 : tagLineMatch kwEND l = true := by simpa using hcon
      have hup := tagLineMatch_append_ws kwEND (by decide) l w hwws hcon2
      rw [← hew] at hup
      rw [heclean.2] at hup
      exact absurd hup (by simp)

/-- Witness for claim C3's amended hypothesis: the second line of
`cleanResponse "a\nb"` is `"b"`, and it matches neither pattern. -/
theorem c3_clean_amended_witness :
    "b".data ∈ (splitLinesC (cleanResponse "a\nb").data).tail ∧
    (tagLineMatch kwSOURCE "b".data = false ∧ tagLineMatch kwEND "b".data = false) :=
  ⟨by decide, c3_clean_amended "a\nb" "b".data (by decide)⟩

/-! Retry and credential behavior of `getAIResponse` (claims C6, C7, C9). -/

theorem restLoop_at_retry_eq (fetch : Nat → FetchResult) (provider : Provider)
    (rc : Nat) (hrc : 1 ≤ rc) :
    ∃ res, restLoop fetch provider rc = (res, 1, []) := by
  unfold restLoop
  dsimp only
  split
  · exact ⟨_, rfl⟩
  · split
    · exact ⟨_, rfl⟩
    · rw [dif_neg (by
        simp only [Bool.and_eq_true, beq_iff_eq, decide_eq_true_eq, not_and]
        intro _
        omega)]
      exact ⟨_, rfl⟩

theorem restLoop_at_retry (fetch : Nat → FetchResult) (provider : Provider)
    (rc : Nat) (hrc : 1 ≤ rc) :
    (restLoop fetch provider rc).2.1 = 1 ∧ (restLoop fetch provider rc).2.2 = [] := by
  obtain ⟨res, h⟩ := restLoop_at_retry_eq fetch provider rc hrc
  rw [h]
  exact ⟨rfl, rfl⟩

theorem restLoop_zero_429 (fetch : Nat → FetchResult) (provider : Provider)
    (h : (fetch 0).status = 429) :
    restLoop fetch provider 0 =
      ((restLoop fetch provider 1).1, (restLoop fetch provider 1).2.1 + 1,
        2000 :: (restLoop fetch provider 1).2.2) := by
  conv_lhs => rw [restLoop]
  rw [if_neg (by simp [h]), if_neg (by simp [h]), dif_pos (by simp [h])]

theorem restLoop_zero_401 (fetch : Nat → FetchResult) (provider : Provider)
    (h : (fetch 0).status = 401) :
    restLoop fetch provider 0 = (Except.error (.authFailed provider), 1, []) := by
  conv_lhs => rw [restLoop]
  rw [if_neg (by simp [h]), if_pos (by simp [h])]

theorem restLoop_zero_calls_le (fetch : Nat → FetchResult) (provider : Provider) :
    (restLoop fetch provider 0).2.1 ≤ 2 := by
  conv_lhs => rw [restLoop]
  split
  · simp
  · split
    · simp
    · split
      · have h1 := (restLoop_at_retry fetch provider 1 (by omega)).1
        simp [h1]
      · simp

theorem getAIResponse_rest_shape (gw : GeminiRequest → Except String (Option String))
    (fetch : Nat → FetchResult) (env : Option String) (provider : Provider)
    (modelName systemPrompt : String) (history : List Message) (apiKey : String)
    (temperature : ℚ) (hp : provider ≠ .gemini) (hk : apiKey ≠ "") :
    getAIResponse gw fetch env provider modelName systemPrompt history apiKey temperature =
      { result := (restLoop fetch provider 0).1.map cleanResponse
        restCalls := (restLoop fetch provider 0).2.1
        geminiCalls := 0
        sleeps := (restLoop fetch provider 0).2.2 } := by
  cases provider with
  | gemini => exact absurd rfl hp
  | openai => simp [getAIResponse, hk]
  | deepseek => simp [getAIResponse, hk]

/-- Claim C6: for a REST provider (non-Gemini, key present), at most two
requests are ever made per `getAIResponse` call; a 429 on the first attempt
makes exactly one retry — the second request runs with the incremented
retry counter after a single 2000 ms sleep and its outcome (cleaned on
success) is returned; a 429 on the retry is surfaced as a provider error
carrying `data.error?.message || "Error 429"`; a 401 is an authentication
failure answered after exactly one request with no sleep — never
retried. -/
theorem c6_retry_behavior :
    (∀ (gw : GeminiRequest → Except String (Option String)) (fetch : Nat → FetchResult)
        (env : Option String) (provider : Provider) (modelName systemPrompt : String)
        (history : List Message) (apiKey : String) (temperature : ℚ),
      provider ≠ .gemini → apiKey ≠ "" →
      (getAIResponse gw fetch env provider modelName systemPrompt history apiKey
        temperature).restCalls ≤ 2) ∧
    (∀ (gw : GeminiRequest → Except String (Option String)) (fetch : Nat → FetchResult)
        (env : Option String) (provider : Provider) (modelName systemPrompt : String)
        (history : List Message) (apiKey : String) (temperature : ℚ),
      provider ≠ .gemini → apiKey ≠ "" → (fetch 0).status = 429 →
      (getAIResponse gw fetch env provider modelName systemPrompt history apiKey
          temperature).restCalls = 2 ∧
      (getAIResponse gw fetch env provider modelName systemPrompt history apiKey
          temperature).sleeps = [2000] ∧
      (getAIResponse gw fetch env provider modelName systemPrompt history apiKey
          temperature).result = (restLoop fetch provider 1).1.map cleanResponse) ∧
    (∀ (gw : GeminiRequest → Except String (Option String)) (fetch : Nat → FetchResult)
        (env : Option String) (provider : Provider) (modelName systemPrompt : String)
        (history : List Message) (apiKey : String) (temperature : ℚ),
      provider ≠ .gemini → apiKey ≠ "" → (fetch 0).status = 429 →
        (fetch 1).status = 429 →
      (getAIResponse gw fetch env provider modelName systemPrompt history apiKey
          temperature).result =
        Except.error (.providerErr provider (jsOrOpt (fetch 1).errorMessage "Error 429"))) ∧
    (∀ (gw : GeminiRequest → Except String (Option String)) (fetch : Nat → FetchResult)
        (env : Option String) (provider : Provider) (modelName systemPrompt : String)
        (history : List Message) (apiKey : String) (temperature : ℚ),
      provider ≠ .gemini → apiKey ≠ "" → (fetch 0).status = 401 →
      (getAIResponse gw fetch env provider modelName systemPrompt history apiKey
          temperature).result = Except.error (.authFailed provider) ∧
      (getAIResponse gw fetch env provider modelName systemPrompt history apiKey
          temperature).restCalls = 1 ∧
      (getAIResponse gw fetch env provider modelName systemPrompt history apiKey
          temperature).sleeps = []) := by
  refine ⟨?_, ?_, ?_, ?_⟩
  · intro gw fetch env provider mn sp h k t hp hk
    rw [getAIResponse_rest_shape gw fetch env provider mn sp h k t hp hk]
    exact restLoop_zero_calls_le fetch provider
  · intro gw fetch env provider mn sp h k t hp hk h429
    rw [getAIResponse_rest_shape gw fetch env provider mn sp h k t hp hk]
    rw [restLoop_zero_429 fetch provider h429]
    obtain ⟨hc, hs⟩ := restLoop_at_retry fetch provider 1 (by omega)
    exact ⟨by simp [hc], by simp [hs], rfl⟩
  · intro gw fetch env provider mn sp h k t hp hk h429a h429b
    rw [getAIResponse_rest_shape gw fetch env provider mn sp h k t hp hk]
    show ((restLoop fetch provider 0).1).map cleanResponse = _
    rw [restLoop_zero_429 fetch provider h429a]
    show ((restLoop fetch provider 1).1).map cleanResponse = _
    have hinner : restLoop fetch provider 1 =
        (Except.error (.providerErr provider (jsOrOpt (fetch 1).errorMessage
          ("Error " ++ toString (fetch 1).status))), 1, []) := by
      conv_lhs => rw [restLoop]
      rw [if_neg (by simp [h429b]), if_neg (by simp [h429b]), dif_neg (by simp)]
    rw [hinner, h429b]
    rfl
  · intro gw fetch env provider mn sp h k t hp hk h401
    rw [getAIResponse_rest_shape gw fetch env provider mn sp h k t hp hk]
    rw [restLoop_zero_401 fetch provider h401]
    exact ⟨rfl, rfl, rfl⟩

/-- Witness for claim C6's hypotheses: a concrete fetch oracle answering
429 then 429. -/
theorem c6_retry_behavior_witness :
    (getAIResponse (fun _ => Except.ok none) (fun _ => ⟨429, some "slow down", none⟩)
        none .openai "gpt" "sys" [] "key" 1).restCalls = 2 ∧
    (getAIResponse (fun _ => Except.ok none) (fun _ => ⟨429, some "slow down", none⟩)
        none .openai "gpt" "sys" [] "key" 1).sleeps = [2000] ∧
    (getAIResponse (fun _ => Except.ok none) (fun _ => ⟨429, some "slow down", none⟩)
        none .openai "gpt" "sys" [] "key" 1).result =
      Except.error (.providerErr .openai "slow down") := by
  have h2 := (c6_retry_behavior.2.1 (fun _ => Except.ok none)
    (fun _ => ⟨429, some "slow down", none⟩) none .openai "gpt" "sys" [] "key" 1
    (by decide) (by decide) rfl)
  have h3 := (c6_retry_behavior.2.2.1 (fun _ => Except.ok none)
    (fun _ => ⟨429, some "slow down", none⟩) none .openai "gpt" "sys" [] "key" 1
    (by decide) (by decide) rfl rfl)
  exact ⟨h2.1, h2.2.1, by rw [h3]; rfl⟩

theorem getAIResponse_missing_key (gw : GeminiRequest → Except String (Option String))
    (fetch : Nat → FetchResult) (env : Option String) (provider : Provider)
    (modelName systemPrompt : String) (history : List Message) (temperature : ℚ)
    (hp : provider ≠ .gemini) :
    getAIResponse gw fetch env provider modelName systemPrompt history "" temperature =
      { result := .error (.missingKey provider), restCalls := 0, geminiCalls := 0,
        sleeps := [] } := by
  cases provider with
  | gemini => exact absurd rfl hp
  | openai => simp [getAIResponse]
  | deepseek => simp [getAIResponse]

theorem trigger_missing_key_shape
    (gateway : Provider → String → String → List Message → String → ℚ → Except String String)
    (now : Nat) (chats : List ChatM) (settings : AppSettingsM) (chatId : String)
    (cur : List Message) (specId : Option String) (cb ta : ChatM)
    (hfind : chats.find? (fun c => c.id == chatId) = some cb)
    (hres : resolveTarget chats cb specId = some ta)
    (hprovne : (ta.provider == Provider.gemini) = false)
    (hkey : keyFor settings ta.provider = "") :
    triggerAIResponseForChat gateway now chats none settings chatId cur specId =
      { chats := chats.map (fun c =>
          if c.id == chatId then
            { c with messages := cur ++ [noKeyMsg now ta.provider],
                     lastMessage := some (noKeyMsg now ta.provider).text,
                     lastTimestamp := some now }
          else c)
        gatewayCalled := false } := by
  unfold triggerAIResponseForChat
  simp only [hfind, hres, hprovne, hkey, Bool.not_false, Bool.and_self, if_true,
    beq_self_eq_true, Bool.false_eq_true, if_false]

/-- Claim C7: when the responder's provider is `openai` or `deepseek` and
no API key is configured, no network request is made — `getAIResponse`
throws the missing-key error with zero REST fetches and zero Gemini SDK
calls — and the orchestration path appends exactly one system message with
`isError = true` to the target conversation without invoking the provider
gateway at all. -/
theorem c7_missing_key :
    (∀ (gw : GeminiRequest → Except String (Option String)) (fetch : Nat → FetchResult)
        (env : Option String) (provider : Provider) (modelName systemPrompt : String)
        (history : List Message) (temperature : ℚ),
      (provider = .openai ∨ provider = .deepseek) →
      (getAIResponse gw fetch env provider modelName systemPrompt history ""
          temperature).result = .error (.missingKey provider) ∧
      (getAIResponse gw fetch env provider modelName systemPrompt history ""
          temperature).restCalls = 0 ∧
      (getAIResponse gw fetch env provider modelName systemPrompt history ""
          temperature).geminiCalls = 0) ∧
    (∀ (gateway : Provider → String → String → List Message → String → ℚ →
          Except String String)
        (now : Nat) (chats : List ChatM) (settings : AppSettingsM) (chatId : String)
        (cur : List Message) (specId : Option String) (cb ta : ChatM),
      chats.find? (fun c => c.id == chatId) = some cb →
      resolveTarget chats cb specId = some ta →
      (ta.provider = .openai ∨ ta.provider = .deepseek) →
      keyFor settings ta.provider = "" →
      (triggerAIResponseForChat gateway now chats none settings chatId cur
          specId).gatewayCalled = false ∧
      ∃ m : Message, m.sender = .system ∧ m.isError = some true ∧
        (triggerAIResponseForChat gateway now chats none settings chatId cur
            specId).chats =
          chats.map (fun c =>
            if c.id == chatId then
              { c with messages := cur ++ [m], lastMessage := some m.text,
                       lastTimestamp := some now }
            else c)) := by
  constructor
  · intro gw fetch env provider mn sp h t hprov
    have hp : provider ≠ .gemini := by
      rcases hprov with h2 | h2 <;> simp [h2]
    rw [getAIResponse_missing_key gw fetch env provider mn sp h t hp]
    exact ⟨rfl, rfl, rfl⟩
  · intro gateway now chats settings chatId cur specId cb ta hfind hres hprov hkey
    have hprovne : (ta.provider == Provider.gemini) = false := by
      rcases hprov with h2 | h2 <;> simp [h2]
    rw [trigger_missing_key_shape gateway now chats settings chatId cur specId cb ta
      hfind hres hprovne hkey]
    exact ⟨rfl, noKeyMsg now ta.provider, rfl, rfl, rfl⟩

/-- A direct 1:1 OpenAI chat fixture. -/
def chatAFix : ChatM :=
  { id := "A", name := "Alice", avatar := "", provider := .openai, modelName := "gpt",
    systemPrompt := "sp", temperature := none, lastMessage := none, lastTimestamp := none,
    isPinned := false, messages := [], tags := [], parentId := none, draft := none,
    isGroup := none, participantIds := none }

/-- Witness for claim C7's hypotheses at a concrete one-chat world with an
empty OpenAI key. -/
theorem c7_missing_key_witness :
    (getAIResponse (fun _ => Except.ok none) (fun _ => ⟨200, none, some "hi"⟩)
        none .openai "gpt" "sys" [] "" 1).result =
      Except.error (.missingKey .openai) ∧
    (getAIResponse (fun _ => Except.ok none) (fun _ => ⟨200, none, some "hi"⟩)
        none .openai "gpt" "sys" [] "" 1).restCalls = 0 ∧
    (triggerAIResponseForChat (fun _ _ _ _ _ _ => Except.ok "x") 5 [chatAFix] none
        ⟨"", "", "gp"⟩ "A" [] none).gatewayCalled = false :=
  let r := c7_missing_key.1 (fun _ => Except.ok none) (fun _ => ⟨200, none, some "hi"⟩)
    none .openai "gpt" "sys" [] 1 (Or.inl rfl)
  let r2 := c7_missing_key.2 (fun _ _ _ _ _ _ => Except.ok "x") 5 [chatAFix]
    ⟨"", "", "gp"⟩ "A" [] none chatAFix chatAFix (by decide) (by decide)
    (Or.inl rfl) rfl
  ⟨r.1, r.2.1, r2.1⟩

/-- Claim C9 fails on the code: the Gemini branch of `getAIResponse` reads
`process.env.API_KEY` (aiService.ts line 119) and ignores the `apiKey`
parameter, so with fixed explicit arguments the behavior depends on the
ambient environment — an SDK oracle that echoes the client's configured
key back distinguishes `env = some "k"` from `env = none`. -/
theorem c9_counterexample :
    getAIResponse (fun req => Except.ok (some req.apiKey)) (fun _ => ⟨200, none, none⟩)
        (some "k") .gemini "m" "sys" [] "ignored" 1 ≠
      getAIResponse (fun req => Except.ok (some req.apiKey)) (fun _ => ⟨200, none, none⟩)
        none .gemini "m" "sys" [] "ignored" 1 := by decide

/-- Claim C9 (amended): for the REST providers (`openai`, `deepseek`) the
outcome of `getAIResponse` under fixed explicit arguments is independent of
the process-wide environment value; for Gemini it is not — the SDK client
is constructed from `process.env.API_KEY || ''` and the explicit `apiKey`
argument is ignored (see the counterexample). -/
theorem c9_env_amended (gw : GeminiRequest → Except String (Option String))
    (fetch : Nat → FetchResult) (env env' : Option String) (provider : Provider)
    (modelName systemPrompt : String) (history : List Message) (apiKey : String)
    (temperature : ℚ) (hp : provider ≠ .gemini) :
    getAIResponse gw fetch env provider modelName systemPrompt history apiKey temperature =
      getAIResponse gw fetch env' provider modelName systemPrompt history apiKey
        temperature := by
  cases provider with
  | gemini => exact absurd rfl hp
  | openai => rfl
  | deepseek => rfl

/-- Witness for claim C9's amended hypothesis at a concrete REST call. -/
theorem c9_env_amended_witness :
    getAIResponse (fun _ => Except.ok none) (fun _ => ⟨200, none, some "hi"⟩) (some "k")
        .openai "m" "sys" [] "key" 1 =
      getAIResponse (fun _ => Except.ok none) (fun _ => ⟨200, none, some "hi"⟩) none
        .openai "m" "sys" [] "key" 1 :=
  c9_env_amended (fun _ => Except.ok none) (fun _ => ⟨200, none, some "hi"⟩)
    (some "k") none .openai "m" "sys" [] "key" 1 (by decide)

/-! Round-robin turn selection (claim C8). -/

/-- Assistant persona `Bob`. -/
def chatBFix : ChatM := { chatAFix with id := "B", name := "Bob" }

/-- Assistant persona `Cara`. -/
def chatCFix : ChatM := { chatAFix with id := "C", name := "Cara" }

/-- A group conversation whose own persona is `Alice` (`chatAFix`) and whose
participants are `Bob` and `Cara`, so the assistant rotation order is
`[A, B, C]`. -/
def chatGroupA : ChatM :=
  { chatAFix with isGroup := some true, participantIds := some ["B", "C"] }

/-- Claim C8: with assistants `[A, B, C]`, if the most recent
assistant-authored message was by `B` the default selection is `C`; if it
was by `C` the wraparound selects `A`; and appending a non-assistant
(human or system) message never changes the selection. -/
theorem c8_round_robin :
    (∀ (msgs : List Message) (m : Message),
      msgs.reverse.find? (fun x => x.sender == .ai && x.authorId.isSome) = some m →
      m.authorId = some "B" →
      (selectNextAI (respondersOf chatGroupA [chatGroupA, chatBFix, chatCFix]) msgs
        false).map Responder.id = some "C") ∧
    (∀ (msgs : List Message) (m : Message),
      msgs.reverse.find? (fun x => x.sender == .ai && x.authorId.isSome) = some m →
      m.authorId = some "C" →
      (selectNextAI (respondersOf chatGroupA [chatGroupA, chatBFix, chatCFix]) msgs
        false).map Responder.id = some "A") ∧
    (∀ (responders : List Responder) (msgs : List Message) (h : Message)
        (isTyping : Bool),
      h.sender ≠ .ai →
      selectNextAI responders (msgs ++ [h]) isTyping =
        selectNextAI responders msgs isTyping) := by
  refine ⟨?_, ?_, ?_⟩
  · intro msgs m hfind hauth
    unfold selectNextAI
    rw [if_neg (by decide), hfind]
    dsimp only
    rw [hauth]
    decide
  · intro msgs m hfind hauth
    unfold selectNextAI
    rw [if_neg (by decide), hfind]
    dsimp only
    rw [hauth]
    decide
  · intro responders msgs h isTyping hs
    unfold selectNextAI
    by_cases hg : (responders.length < 2 || isTyping) = true
    · rw [if_pos hg, if_pos hg]
    · rw [if_neg hg, if_neg hg]
      have hph : (h.sender == Sender.ai && h.authorId.isSome) = false := by
        have : (h.sender == Sender.ai) = false := by
          simpa [beq_eq_false_iff_ne] using hs
        simp [this]
      have hfind : (msgs ++ [h]).reverse.find?
          (fun x => x.sender == .ai && x.authorId.isSome) =
          msgs.reverse.find? (fun x => x.sender == .ai && x.authorId.isSome) := by
        rw [List.reverse_append]
        simp [List.find?, hph]
      rw [hfind]

/-- Witness for claim C8's hypotheses: after messages authored by `B` (then
a human message), the selection is `C`. -/
theorem c8_round_robin_witness :
    (selectNextAI (respondersOf chatGroupA [chatGroupA, chatBFix, chatCFix])
      [{ id := "m1", text := "hi", sender := .ai, authorId := some "B",
         authorName := some "Bob", timestamp := 1, isError := none },
       { id := "m2", text := "yo", sender := .user, authorId := none,
         authorName := none, timestamp := 2, isError := none }]
      false).map Responder.id = some "C" :=
  c8_round_robin.1
    [{ id := "m1", text := "hi", sender := .ai, authorId := some "B",
       authorName := some "Bob", timestamp := 1, isError := none },
     { id := "m2", text := "yo", sender := .user, authorId := none,
       authorName := none, timestamp := 2, isError := none }]
    { id := "m1", text := "hi", sender := .ai, authorId := some "B",
      authorName := some "Bob", timestamp := 1, isError := none }
    (by decide) rfl

/-! Frame property of the orchestration step (claim C10). -/

theorem map_filter_ne (chats : List ChatM) (chatId : String) (f : ChatM → ChatM)
    (hf : ∀ c, (f c).id = c.id) :
    (chats.map (fun c => if c.id == chatId then f c else c)).filter
        (fun c => !(c.id == chatId)) =
      chats.filter (fun c => !(c.id == chatId)) := by
  induction chats with
  | nil => rfl
  | cons c cs ih =>
    by_cases hc : (c.id == chatId) = true
    · simp only [List.map_cons, if_pos hc, List.filter_cons]
      rw [show (!((f c).id == chatId)) = false by simp [hf c, hc]]
      rw [show (!(c.id == chatId)) = false by simp [hc]]
      simpa using ih
    · simp only [List.map_cons, if_neg hc, List.filter_cons]
      rw [show (!(c.id == chatId)) = true by simp [hc]]
      simp only [if_true]
      rw [ih]

/-- Claim C10: on every path of `triggerAIResponseForChat` — early return,
missing credential, provider success (draft or not), or provider failure —
every conversation other than the one whose id was passed is left entirely
unchanged (same fields, same relative order). -/
theorem c10_frame
    (gateway : Provider → String → String → List Message → String → ℚ →
      Except String String)
    (now : Nat) (chats : List ChatM) (draftSubChat : Option ChatM)
    (settings : AppSettingsM) (chatId : String) (currentMessages : List Message)
    (specificAuthorId : Option String) :
    (triggerAIResponseForChat gateway now chats draftSubChat settings chatId
        currentMessages specificAuthorId).chats.filter (fun c => !(c.id == chatId)) =
      chats.filter (fun c => !(c.id == chatId)) := by
  rcases draftSubChat with _ | d
  · unfold triggerAIResponseForChat
    dsimp only
    split
    · rfl
    · split
      · rfl
      · split
        · exact map_filter_ne chats chatId _ (fun c => rfl)
        · split
          · split
            · rename_i hdraft
              simp at hdraft
            · exact map_filter_ne chats chatId _ (fun c => rfl)
          · exact map_filter_ne chats chatId _ (fun c => rfl)
  · by_cases hdid : (d.id == chatId) = true
    · have hdid2 : d.id = chatId := by simpa using hdid
      unfold triggerAIResponseForChat
      dsimp only
      simp only [hdid, if_true]
      split
      · rfl
      · split
        · exact map_filter_ne chats chatId _ (fun c => rfl)
        · split
          · dsimp only
            simp only [List.filter_cons, hdid2, beq_self_eq_true, Bool.not_true,
              Bool.false_eq_true, if_false]
            rw [List.filter_filter]
            simp
          · exact map_filter_ne chats chatId _ (fun c => rfl)
    · have hdid0 : (d.id == chatId) = false := by
        rcases h : (d.id == chatId)
        · rfl
        · exact absurd h hdid
      unfold triggerAIResponseForChat
      dsimp only
      simp only [hdid0, Bool.false_eq_true, if_false]
      split
      · rfl
      · split
        · rfl
        · split
          · exact map_filter_ne chats chatId _ (fun c => rfl)
          · split
            · exact map_filter_ne chats chatId _ (fun c => rfl)
            · exact map_filter_ne chats chatId _ (fun c => rfl)

end OMobile
